import Mathlib

/-!
# imgdata_tool: a verification development

A shallow embedding of `imgdata_tool.c` (the Nexus 5 `imgdata.img` packer and
unpacker) and theorems about it.

Conventions of the embedding.

* `unsigned int` values are natural numbers; every operation of the source
  that can wrap is written with an explicit `% 4294967296`.
* `int` values are integers; `wrap_int` brings the result of an `int`
  operation back into the 32-bit two's complement range.
* A C string is the list of its bytes; reading a list past its end reads the
  terminating NUL byte.  A fixed `char[16]` field is a list of 16 bytes.
* `EXIT_SUCCESS` is `0` and `EXIT_FAILURE` is `1`.
* A function of the source that can end the process ends in an `outcome`: it
  returns its result, it returns `EXIT_FAILURE`, or the process is aborted.
* The C library and libpng are not part of the source: `malloc` and the calls
  of libpng are parameters of the functions that use them.
-/

namespace Imgdata

/-! ## Constants of the source -/

/-- The literal `"IMGDATA!"` as bytes. -/
def IMGDATA_MAGIC : List Nat := [73, 77, 71, 68, 65, 84, 65, 33]

def IMGDATA_MAGIC_SIZE : Nat := 8
def IMGDATA_VERSION : Nat := 1
def IMGDATA_FILE_BLOCK_SIZE : Nat := 512
def IMGDATA_FILE_NAME_SIZE : Nat := 16
def IMGDATA_FILE_OFFSET_START : Nat := 1024

def MARK_X : Nat := 1
def MARK_Y : Nat := 2
def MARK_W : Nat := 4
def MARK_H : Nat := 8
def MARK_S : Nat := 16

def EXIT_SUCCESS : Nat := 0
def EXIT_FAILURE : Nat := 1

/-! ## Data model -/

/-- The `imgdatahdr` struct: the header of an imgdata.img. -/
structure imgdatahdr where
  magic : List Nat
  unknown : Nat
  num_files : Nat
  padding_a : Nat
  padding_b : Nat
deriving DecidableEq, Repr

/-- The `imgdata_file` struct: one record of the metadata table. -/
structure imgdata_file where
  name : List Nat
  imgwidth : Nat
  imgheight : Nat
  scrxpos : Nat
  scrypos : Nat
  offset : Nat
  size : Nat
deriving DecidableEq, Repr

/-- The `pixelrun` struct: the basic unit of content. -/
structure pixelrun where
  count : Nat
  red : Nat
  green : Nat
  blue : Nat
deriving DecidableEq, Repr

/-- The `imgdata_content` struct: an encoded image read from the container;
`content` holds the bytes of the buffer. -/
structure imgdata_content where
  name : List Nat
  size : Nat
  content : List Nat
deriving DecidableEq, Repr

/-- The `arg` struct: the internal representation of one command line
argument. -/
structure arg where
  name : List Nat
  x : Nat
  y : Nat
  w : Nat
  h : Nat
  size : Nat
  bsize : Nat
  mark : Nat
  content : List pixelrun
deriving DecidableEq, Repr

/-- The ways in which a function of the source ends: it returns its result
(`ok`), it returns `EXIT_FAILURE` (`failure`), or the process is aborted in the
call (`abort`): an error raised by libpng with no `setjmp` set, or `free` called
on a pointer that `malloc` has not returned. -/
inductive outcome (α : Type) where
  | ok : α → outcome α
  | failure : outcome α
  | abort : outcome α
deriving DecidableEq, Repr

/-- The result of a function that has returned it, `none` otherwise. -/
def outcome.toOption {α : Type} : outcome α → Option α
  | outcome.ok a => some a
  | outcome.failure => none
  | outcome.abort => none

/-! ## C library functions -/

/-- The bytes of a C string up to its terminating NUL. -/
def cstr (s : List Nat) : List Nat := s.takeWhile (fun c => c != 0)

/-- The function `strlen`. -/
def strlen (s : List Nat) : Nat := (cstr s).length

/-- The function `strncmp`, up to the sign of a non-zero result: `0` when the
first `n` characters agree (stopping after a common NUL), `1` otherwise. -/
def strncmp : List Nat → List Nat → Nat → Nat
  | _, _, 0 => 0
  | s1, s2, n + 1 =>
    if s1.headD 0 ≠ s2.headD 0 then 1
    else if s1.headD 0 = 0 then 0
    else strncmp s1.tail s2.tail n

/-- The function `strrchr`, as the index of the last occurrence of `c` in
the string, `none` standing for `NULL`. -/
def strrchr (s : List Nat) (c : Nat) : Option Nat :=
  if c ∈ cstr s then some ((cstr s).length - 1 - (cstr s).reverse.indexOf c) else none

/-- The function `strncpy` into a buffer of which only the first `n` bytes are
kept: the characters of the source, padded with NUL bytes up to `n`. -/
def strncpy (src : List Nat) (n : Nat) : List Nat :=
  (cstr src).take n ++ List.replicate (n - (cstr src).length) 0

/-- The value of an `int` expression brought back into the range of a 32-bit
two's complement integer. -/
def wrap_int (x : Int) : Int := (x + 2147483648) % 4294967296 - 2147483648

/-- The result of adding an `int` to an `unsigned int`. -/
def add_uint_int (a : Nat) (b : Int) : Nat := (((a : Int) + b) % 4294967296).toNat

/-! ## update_header -/

/-- The local `check` of `update_header` and `create_file_header`: the number
of characters of the argument's name that are kept, which cuts the extension
when the last dot lies within the first 16 characters. -/
def name_check (name : List Nat) : Nat :=
  match strrchr name 46 with
  | some dot => if dot < IMGDATA_FILE_NAME_SIZE then dot else IMGDATA_FILE_NAME_SIZE
  | none => IMGDATA_FILE_NAME_SIZE

/-- The local buffer `uname` of `update_header` after
`strncpy(uname, ufile[i].name, check); uname[check] = 0`. -/
def uname (name : List Nat) : List Nat :=
  strncpy name (name_check name) ++ [0]

/-- The test `!strncmp(uname, imgs[j].name, IMGDATA_FILE_NAME_SIZE)`. -/
def name_matches (u : arg) (f : imgdata_file) : Bool :=
  strncmp (uname u.name) f.name IMGDATA_FILE_NAME_SIZE == 0

/-- The body of the `MARK_S` branch: the new value of `offchange`. -/
def size_offchange (fsize usize : Nat) (offchange : Int) : Int :=
  let iblks : Int := if fsize = 0 then 0 else ((fsize / IMGDATA_FILE_BLOCK_SIZE + 1 : Nat) : Int)
  let ublks : Int := ((usize / IMGDATA_FILE_BLOCK_SIZE + 1 : Nat) : Int)
  if ublks - iblks ≠ 0 then
    wrap_int (offchange + wrap_int ((IMGDATA_FILE_BLOCK_SIZE : Int) * (ublks - iblks)))
  else offchange

/-- The body of the inner loop of `update_header` for one argument, when the
names match: each marked field is copied from the argument, and a marked size
updates `offchange` from the size stored before. -/
def apply_marks (u : arg) (f : imgdata_file) (offchange : Int) : imgdata_file × Int :=
  ({ name := f.name
     imgwidth := if u.mark &&& MARK_W ≠ 0 then u.w else f.imgwidth
     imgheight := if u.mark &&& MARK_H ≠ 0 then u.h else f.imgheight
     scrxpos := if u.mark &&& MARK_X ≠ 0 then u.x else f.scrxpos
     scrypos := if u.mark &&& MARK_Y ≠ 0 then u.y else f.scrypos
     offset := f.offset
     size := if u.mark &&& MARK_S ≠ 0 then u.size else f.size },
   if u.mark &&& MARK_S ≠ 0 then size_offchange f.size u.size offchange else offchange)

/-- One iteration of the inner loop of `update_header`. -/
def update_one (st : imgdata_file × Int) (u : arg) : imgdata_file × Int :=
  if name_matches u st.1 then apply_marks u st.1 st.2 else st

/-- The inner loop of `update_header` over the parsed arguments. -/
def update_entry (f : imgdata_file) (offchange : Int) (ufile : List arg) : imgdata_file × Int :=
  ufile.foldl update_one (f, offchange)

/-- The outer loop of `update_header`, with the running `offchange`. -/
def update_header_loop : List imgdata_file → List arg → Int → List imgdata_file
  | [], _, _ => []
  | f :: rest, ufile, offchange =>
    let r := update_entry { f with offset := add_uint_int f.offset offchange } offchange ufile
    r.1 :: update_header_loop rest ufile r.2

/-- The function `update_header`; `icount` and `ucount` are the lengths of the
two lists. -/
def update_header (imgs : List imgdata_file) (ufile : List arg) : List imgdata_file :=
  update_header_loop imgs ufile 0

/-! ## The run-length encoder of parse_png_files -/

/-- One RGB pixel of a row delivered by `png_read_image`: the bytes
`rows[j][k]`, `rows[j][k+1]`, `rows[j][k+2]` for `k` a multiple of 3. -/
structure rgb where
  red : Nat
  green : Nat
  blue : Nat
deriving DecidableEq, Repr

/-- The state of the filling loop of `parse_png_files`.  The records
`content[0] .. content[l-1]` are `content`, the record `content[l]` being
filled is `run`, and `l` is the length of `content`. -/
structure fill_state where
  content : List pixelrun
  run : pixelrun
  blockcount : Nat
deriving DecidableEq, Repr

/-- The index `l` of the run being filled. -/
def fill_state.l (st : fill_state) : Nat := st.content.length

/-- The body of the filling loop for the pixel `rows[j][k..k+2]`. -/
def fill_pixel (st : fill_state) (p : rgb) : fill_state :=
  if st.run.count ≠ 255 ∧ st.run.red = p.red ∧ st.run.green = p.green ∧ st.run.blue = p.blue then
    { st with run := { st.run with count := st.run.count + 1 } }
  else
    { content := st.content ++ [st.run]
      run := { count := 1, red := p.red, green := p.green, blue := p.blue }
      blockcount :=
        if (IMGDATA_FILE_BLOCK_SIZE * st.blockcount) % 4294967296
            ≤ ((st.l + 1) * 4) % 4294967296 then
          st.blockcount + 1
        else st.blockcount }

/-- The inner loop `for (k = 0; k < bwidth; k += 3)` over one row, with
`bwidth = 3 * width`. -/
def fill_row (width : Nat) (st : fill_state) (row : List rgb) : fill_state :=
  (List.range width).foldl (fun s k => fill_pixel s (row.getD k ⟨0, 0, 0⟩)) st

/-- The state after "init first pixelrun": count 0 and the colour of
`rows[0][0..2]`, with one block allocated. -/
def fill_init (rows : List (List rgb)) : fill_state :=
  let p := (rows.getD 0 []).getD 0 ⟨0, 0, 0⟩
  { content := [], run := { count := 0, red := p.red, green := p.green, blue := p.blue },
    blockcount := 1 }

/-- The filling loops `for (j = 0; j < height; ++j)` of `parse_png_files`. -/
def fill (width : Nat) (rows : List (List rgb)) : fill_state :=
  rows.foldl (fill_row width) (fill_init rows)

/-- The run records `content[0] .. content[l]` after the filling loops. -/
def fill_runs (width : Nat) (rows : List (List rgb)) : List pixelrun :=
  (fill width rows).content ++ [(fill width rows).run]

/-- What the pixel block of `parse_png_files` stores in `ufile[i]`: the size,
the block-aligned size and the buffer with its zeroed remainder. -/
structure encoded where
  size : Nat
  bsize : Nat
  content : List pixelrun
deriving DecidableEq, Repr

/-- The pixel block of `parse_png_files` (line 611 on) for a grid of `height`
rows; `none` when `height > 0 && width > 0` fails and nothing is stored. -/
def parse_png_pixels (width : Nat) (rows : List (List rgb)) : Option encoded :=
  if 0 < rows.length ∧ 0 < width then
    let st := fill width rows
    let l := st.l + 1
    let bsize := (st.blockcount * IMGDATA_FILE_BLOCK_SIZE) % 4294967296
    let size := (l * 4) % 4294967296
    some { size := size, bsize := bsize,
           content := st.content ++ [st.run] ++ List.replicate ((bsize - size) / 4) ⟨0, 0, 0, 0⟩ }
  else none

/-! ## The decoder of convert_to_png -/

/-- The state of the row loop of `convert_to_png`: the buffer `row` (one
`rgb` for each three bytes), the byte index `j`, and the rows handed to
`png_write_row` so far. -/
structure png_state where
  row : List rgb
  j : Nat
  written : List (List rgb)
deriving DecidableEq, Repr

/-- The body of the loop over `k` in `convert_to_png`: one pixel of the run
`r` is stored at `row[j..j+2]`, and the row is written when it is full. -/
def put_pixel (imgwidth : Nat) (r : pixelrun) (s : png_state) : png_state :=
  let row := s.row.set (s.j / 3) ⟨r.red, r.green, r.blue⟩
  if (s.j + 3) % 4294967296 = (imgwidth * 3) % 4294967296 then
    { row := row, j := 0, written := s.written ++ [row] }
  else
    { row := row, j := s.j + 3, written := s.written }

/-- The loop `for (k = 0; k < buf[i].count; ++k)`, with `n` iterations left. -/
def put_run (imgwidth : Nat) (r : pixelrun) : Nat → png_state → png_state
  | 0, s => s
  | n + 1, s => put_run imgwidth r n (put_pixel imgwidth r s)

/-- The row loop of `convert_to_png` over the `size >> 2` pixelruns of `buf`;
the row buffer starts with unspecified content, modelled by black pixels. -/
def convert_rows (buf : List pixelrun) (imgwidth size : Nat) : png_state :=
  (buf.take (size / 4)).foldl (fun s r => put_run imgwidth r r.count s)
    { row := List.replicate imgwidth ⟨0, 0, 0⟩, j := 0, written := [] }

/-- What the calls of libpng in `convert_to_png` do.  The two struct
creations return a pointer (`true`) or `NULL`.  Each other call returns
(`true`) or raises an error (`false`): `write_info w h` stands for
`png_set_IHDR` and `png_write_info` on an image of `w` by `h` pixels,
`write_row w h i` for the call of `png_write_row` after `i` rows, and
`write_end w h n` for `png_write_end` after `n` rows.  The source sets no
`setjmp`, so an error raised by libpng aborts the process. -/
structure libpng where
  create_write_struct : Bool
  create_info_struct : Bool
  write_info : Nat → Nat → Bool
  write_row : Nat → Nat → Nat → Bool
  write_end : Nat → Nat → Nat → Bool

/-- How `convert_to_png` ends once the PNG header is written, from the rows
that its loop hands to `png_write_row`: the process is aborted at the first
call of libpng that raises an error, and the function returns `EXIT_SUCCESS`
otherwise. -/
def png_result (png : libpng) (imgwidth imgheight : Nat) (rows : List (List rgb)) :
    outcome (List (List rgb)) :=
  if (List.range rows.length).all (fun i => png.write_row imgwidth imgheight i)
      && png.write_end imgwidth imgheight rows.length then
    outcome.ok rows
  else outcome.abort

/-- The calls of libpng that `convert_to_png` makes for an image of `w` by
`h` pixels of which it writes `h` rows all return: the structs are created,
the header is accepted, each of the `h` rows is accepted and so is the end. -/
def libpng.accepts (png : libpng) (w h : Nat) : Prop :=
  png.create_write_struct = true ∧ png.create_info_struct = true ∧
    png.write_info w h = true ∧ (∀ i, i < h → png.write_row w h i = true) ∧
    png.write_end w h h = true

instance (png : libpng) (w h : Nat) : Decidable (png.accepts w h) :=
  inferInstanceAs (Decidable (_ ∧ _))

/-- The function `convert_to_png` on the content `buf` of the entry with the
fields `imgwidth`, `imgheight` and `size`.  It returns `EXIT_FAILURE` when a
PNG struct cannot be created, and on no other path: the status after the loop
is `EXIT_SUCCESS`, and an error raised by libpng aborts the process.
`png_set_IHDR` raises an error on a width or a height of 0 (these two cases
are not left to the parameter: with a width of 0 the row buffer has no byte
and the loop would write outside it); the result `ok` holds the rows handed
to `png_write_row`, in order. -/
def convert_to_png (png : libpng) (buf : List pixelrun) (imgwidth imgheight size : Nat) :
    outcome (List (List rgb)) :=
  if png.create_write_struct = false then outcome.failure
  else if png.create_info_struct = false then outcome.failure
  else if imgwidth = 0 ∨ imgheight = 0 ∨ png.write_info imgwidth imgheight = false then
    outcome.abort
  else png_result png imgwidth imgheight (convert_rows buf imgwidth size).written

/-! ## Reading and writing the container -/

/-- A little-endian `unsigned int` read from the first four bytes of `b`. -/
def le32 (b : List Nat) : Nat :=
  b.getD 0 0 + 256 * b.getD 1 0 + 65536 * b.getD 2 0 + 16777216 * b.getD 3 0

/-- The four bytes of an `unsigned int` in memory, little-endian. -/
def le32_bytes (n : Nat) : List Nat :=
  [n % 256, n / 256 % 256, n / 65536 % 256, n / 16777216 % 256]

/-- The 24 bytes of an `imgdatahdr` read into the struct. -/
def parse_hdr (b : List Nat) : imgdatahdr :=
  { magic := b.take 8
    unknown := le32 (b.drop 8)
    num_files := le32 (b.drop 12)
    padding_a := le32 (b.drop 16)
    padding_b := le32 (b.drop 20) }

/-- The 40 bytes of an `imgdata_file` read into the struct. -/
def parse_file (b : List Nat) : imgdata_file :=
  { name := b.take 16
    imgwidth := le32 (b.drop 16)
    imgheight := le32 (b.drop 20)
    scrxpos := le32 (b.drop 24)
    scrypos := le32 (b.drop 28)
    offset := le32 (b.drop 32)
    size := le32 (b.drop 36) }

/-- The memory image of an `imgdata_file`. -/
def file_bytes (f : imgdata_file) : List Nat :=
  f.name ++ le32_bytes f.imgwidth ++ le32_bytes f.imgheight ++ le32_bytes f.scrxpos ++
    le32_bytes f.scrypos ++ le32_bytes f.offset ++ le32_bytes f.size

/-- The first `n` complete 40-byte records of `b`, read into structs. -/
def parse_files : Nat → List Nat → List imgdata_file
  | 0, _ => []
  | n + 1, b => parse_file (b.take 40) :: parse_files n (b.drop 40)

/-- The function `read_file_header` on the bytes of the opened file;
`malloc n` tells whether `malloc` of `n` bytes returns a pointer (the product
`num_files * sizeof(imgdata_file)` is a `size_t` of 64 bits and does not wrap).
A short header, a wrong magic and a `NULL` from `malloc` return
`EXIT_FAILURE`.  When `fread` reads no record, or a number that is negative as
an `int`, line 191 calls `free(imgs)` on the `imgdata_file **` argument, the
address of the variable of `main`, which `malloc` has not returned: the
process is aborted.  The table holds the records that `fread` has read; when
these are fewer than `num_files`, the rest of the allocated array is not
initialised and is not represented. -/
def read_file_header (malloc : Nat → Bool) (img : List Nat) :
    outcome (imgdatahdr × List imgdata_file) :=
  if img.length < 24 then outcome.failure
  else
    let bimg := parse_hdr (img.take 24)
    if strncmp bimg.magic IMGDATA_MAGIC IMGDATA_MAGIC_SIZE ≠ 0 then outcome.failure
    else if malloc (bimg.num_files * 40) = false then outcome.failure
    else
      let read := min bimg.num_files ((img.length - 24) / 40)
      if read = 0 ∨ 2147483648 ≤ read then outcome.abort
      else outcome.ok (bimg, parse_files read (img.drop 24))

/-- The function `create_file_header`: the header and the zeroed table in
which each record has the name of its argument, cut by `check`, and the
offset `IMGDATA_FILE_OFFSET_START`; `calloc` is taken to give the table. -/
def create_file_header (ufile : List arg) : imgdatahdr × List imgdata_file :=
  ({ magic := IMGDATA_MAGIC, unknown := IMGDATA_VERSION, num_files := ufile.length,
     padding_a := 0, padding_b := 0 },
   ufile.map (fun u =>
     { name := strncpy u.name (name_check u.name)
         ++ List.replicate (IMGDATA_FILE_NAME_SIZE - name_check u.name) 0
       imgwidth := 0, imgheight := 0, scrxpos := 0, scrypos := 0
       offset := IMGDATA_FILE_OFFSET_START, size := 0 }))

/-- The block-aligned size that `read_file_imgs` computes for a content size. -/
def read_size (size : Nat) : Nat :=
  ((((size + 4294967295) % 4294967296) / IMGDATA_FILE_BLOCK_SIZE + 1)
    * IMGDATA_FILE_BLOCK_SIZE) % 4294967296

/-- The function `read_file_imgs`, `none` standing for `EXIT_FAILURE`;
`malloc` is taken to succeed. -/
def read_file_imgs (img : List Nat) : List imgdata_file → Option (List imgdata_content)
  | [] => some []
  | f :: rest =>
    if read_size f.size = 0 ∨ img.length < f.offset + read_size f.size then none
    else
      match read_file_imgs img rest with
      | none => none
      | some cs =>
        some ({ name := strncpy f.name IMGDATA_FILE_NAME_SIZE ++ [0]
                size := read_size f.size
                content := (img.drop f.offset).take (read_size f.size) } :: cs)

/-- The four bytes of a `pixelrun` in memory. -/
def pixelrun.bytes (r : pixelrun) : List Nat := [r.count, r.red, r.green, r.blue]

/-- The memory image of a content buffer. -/
def content_bytes (c : List pixelrun) : List Nat := c.flatMap pixelrun.bytes

/-- The call `fwrite(buf, size, 1, img)` on a stream without write errors:
the bytes appended to the stream, `none` when the call returns 0. -/
def fwrite (buf : List Nat) (size : Nat) : Option (List Nat) :=
  if size = 0 then none else some (buf.take size)

/-- The inner loop of `write_file_imgs` for the content `c`: the flag
`written` and the payloads written so far, `none` when an `fwrite` fails. -/
def write_img_loop (c : imgdata_content) :
    List arg → Bool × List (List Nat) → Option (Bool × List (List Nat))
  | [], st => some st
  | u :: us, st =>
    if strncmp c.name u.name (strlen c.name) = 0 then
      match fwrite (content_bytes u.content) u.bsize with
      | none => none
      | some b => write_img_loop c us (true, st.2 ++ [b])
    else write_img_loop c us st

/-- The outer loop of `write_file_imgs`. -/
def write_file_imgs_loop :
    List imgdata_content → List arg → List (List Nat) → Option (List (List Nat))
  | [], _, out => some out
  | c :: cs, ufile, out =>
    match write_img_loop c ufile (false, out) with
    | none => none
    | some st =>
      if st.1 then write_file_imgs_loop cs ufile st.2
      else
        match fwrite c.content c.size with
        | none => none
        | some b => write_file_imgs_loop cs ufile (st.2 ++ [b])

/-- The function `write_file_imgs`: the payloads written one after the other
from `IMGDATA_FILE_OFFSET_START` on, after which the file is truncated;
`none` stands for `EXIT_FAILURE`. -/
def write_file_imgs (cont : List imgdata_content) (ufile : List arg) : Option (List (List Nat)) :=
  write_file_imgs_loop cont ufile []

/-- The writing loop of `write_file_args`. -/
def write_file_args_loop : List arg → List (List Nat) → Option (List (List Nat))
  | [], out => some out
  | u :: us, out =>
    match fwrite (content_bytes u.content) u.bsize with
    | none => none
    | some b => write_file_args_loop us (out ++ [b])

/-- The function `write_file_args`: the file is truncated to
`IMGDATA_FILE_OFFSET_START` and the payloads are written one after the other
from there on; `none` stands for `EXIT_FAILURE`. -/
def write_file_args (ufile : List arg) : Option (List (List Nat)) :=
  write_file_args_loop ufile []

/-- The file positions at which payloads written one after the other from
`pos` on begin. -/
def payload_positions : Nat → List (List Nat) → List Nat
  | _, [] => []
  | pos, b :: bs => pos :: payload_positions (pos + b.length) bs

/-! ## Extraction -/

/-- The pixelrun records held by a buffer of bytes. -/
def bytes_runs : List Nat → List pixelrun
  | c :: r :: g :: b :: rest => ⟨c, r, g, b⟩ :: bytes_runs rest
  | _ => []

/-- The function `extract_contents`, every `fopen` succeeding and the `malloc`
of each buffer giving memory: the names of the files that it creates, each with the rows of the PNG written to it, and
whether the process is aborted in a call of `convert_to_png` (`true`), which
ends the loop.  The name is the string that starts at `imgs[i].name` in the
memory of the table, followed by ".png"; the file is created before
`convert_to_png` is called, and holds no complete PNG when that call does not
return `EXIT_SUCCESS`. -/
def extract_contents (png : libpng) (img : List Nat) :
    List imgdata_file → List (List Nat × List (List rgb)) × Bool
  | [] => ([], false)
  | f :: rest =>
    match convert_to_png png (bytes_runs ((img.drop f.offset).take f.size))
        f.imgwidth f.imgheight f.size with
    | outcome.ok rows =>
      ((cstr ((f :: rest).flatMap file_bytes) ++ [46, 112, 110, 103], rows)
          :: (extract_contents png img rest).1,
        (extract_contents png img rest).2)
    | outcome.failure =>
      ((cstr ((f :: rest).flatMap file_bytes) ++ [46, 112, 110, 103], [])
          :: (extract_contents png img rest).1,
        (extract_contents png img rest).2)
    | outcome.abort =>
      ([(cstr ((f :: rest).flatMap file_bytes) ++ [46, 112, 110, 103], [])], true)

/-- The outcome of a run of `main`: the exit status, `none` when the process
is aborted, and the files created in the working directory. -/
structure run_result where
  status : Option Nat
  files : List (List Nat × List (List rgb))
deriving DecidableEq, Repr

/-- The function `main` in mode `RUN_EXTRACT` on a container that `fopen`
opens, with the bytes `img`. -/
def main_extract (malloc : Nat → Bool) (png : libpng) (img : List Nat) : run_result :=
  match read_file_header malloc img with
  | outcome.failure => { status := some EXIT_SUCCESS, files := [] }
  | outcome.abort => { status := none, files := [] }
  | outcome.ok r =>
    { status := if (extract_contents png img r.2).2 then none else some EXIT_SUCCESS
      files := (extract_contents png img r.2).1 }

/-! ## Specification-level functions for the codec -/

/-- The colour of a run record. -/
def pixelrun.colour (r : pixelrun) : rgb := ⟨r.red, r.green, r.blue⟩

/-- The row-major pixel stream that a sequence of run records stands for:
each record expands to `count` pixels of its colour. -/
def expand_runs (rs : List pixelrun) : List rgb :=
  rs.flatMap (fun r => List.replicate r.count r.colour)

/-- The row-major pixel stream of a grid. -/
def pixel_stream (rows : List (List rgb)) : List rgb := rows.flatten

/-- The run records that the filling loop yields from the run `cur` being
filled and the pixels still to come. -/
def runs_from : pixelrun → List rgb → List pixelrun
  | cur, [] => [cur]
  | cur, p :: ps =>
    if cur.count ≠ 255 ∧ cur.red = p.red ∧ cur.green = p.green ∧ cur.blue = p.blue then
      runs_from { cur with count := cur.count + 1 } ps
    else cur :: runs_from { count := 1, red := p.red, green := p.green, blue := p.blue } ps

/-- The body of the loop over `k` in `convert_to_png`, for a pixel. -/
def put_rgb (imgwidth : Nat) (s : png_state) (p : rgb) : png_state :=
  let row := s.row.set (s.j / 3) p
  if (s.j + 3) % 4294967296 = (imgwidth * 3) % 4294967296 then
    { row := row, j := 0, written := s.written ++ [row] }
  else
    { row := row, j := s.j + 3, written := s.written }

/-- A grid of the given width: every row has `width` pixels. -/
def is_grid (width : Nat) (rows : List (List rgb)) : Prop :=
  ∀ row ∈ rows, row.length = width

instance (width : Nat) (rows : List (List rgb)) : Decidable (is_grid width rows) :=
  inferInstanceAs (Decidable (∀ row ∈ rows, row.length = width))

/-! ## Layout of the content region -/

/-- The number of blocks that hold `size` bytes: `size / 512` rounded up. -/
def ceil_blocks (size : Nat) : Nat :=
  (size + (IMGDATA_FILE_BLOCK_SIZE - 1)) / IMGDATA_FILE_BLOCK_SIZE

/-- The block-aligned size of a content size. -/
def aligned (size : Nat) : Nat := ceil_blocks size * IMGDATA_FILE_BLOCK_SIZE

/-- Each entry ends, block-aligned, at or before the offset of the next. -/
def layout_chain : List imgdata_file → Bool
  | [] => true
  | [_] => true
  | f :: g :: rest => decide (f.offset + aligned f.size ≤ g.offset) && layout_chain (g :: rest)

/-- The layout invariant of a table: the first offset is
`IMGDATA_FILE_OFFSET_START` and no entry overlaps the next. -/
def layout_ok (imgs : List imgdata_file) : Bool :=
  (imgs.head?.map (fun f => f.offset) == some IMGDATA_FILE_OFFSET_START) && layout_chain imgs

/-! ## Example inputs -/

/-- A row of `n` pixels that alternate between red and blue. -/
def stripes (n : Nat) : List rgb :=
  (List.range n).map (fun i => if i % 2 = 0 then ⟨255, 0, 0⟩ else ⟨0, 0, 255⟩)

/-- The name field "boot". -/
def name_boot : List Nat := [98, 111, 111, 116, 0, 0, 0, 0, 0, 0, 0, 0, 0, 0, 0, 0]

/-- The name field "bootloader". -/
def name_bootloader : List Nat :=
  [98, 111, 111, 116, 108, 111, 97, 100, 101, 114, 0, 0, 0, 0, 0, 0]

/-- The argument name "boot.png". -/
def arg_boot_png : List Nat := [98, 111, 111, 116, 46, 112, 110, 103]

/-- The argument name "bootloader.png". -/
def arg_bootloader_png : List Nat :=
  [98, 111, 111, 116, 108, 111, 97, 100, 101, 114, 46, 112, 110, 103]

/-- The argument that `parse_args` and `parse_png_files` build for a PNG file
with the given name and pixels, without coordinates.  The fields that the
source leaves without a value are shown as 0 and as the empty buffer. -/
def png_arg (name : List Nat) (width : Nat) (rows : List (List rgb)) : arg :=
  match parse_png_pixels width rows with
  | some e =>
    { name := name, x := 0, y := 0, w := width, h := rows.length, size := e.size,
      bsize := e.bsize, mark := MARK_W + MARK_H + MARK_S, content := e.content }
  | none =>
    { name := name, x := 0, y := 0, w := width, h := rows.length, size := 0, bsize := 0,
      mark := MARK_W + MARK_H, content := [] }

/-! ## Specification-level functions for names -/

/-- The index of the last '.' of a string, if it has one. -/
def last_dot : List Nat → Option Nat
  | [] => none
  | c :: cs =>
    match last_dot cs with
    | some i => some (i + 1)
    | none => if c = 46 then some 0 else none

/-- The name of an argument as it is compared: cut at its last '.' when that
dot lies within the first 16 characters, and cut to at most 16 characters
otherwise. -/
def request_name (name : List Nat) : List Nat :=
  match last_dot (cstr name) with
  | some d => if d < 16 then (cstr name).take d else (cstr name).take 16
  | none => (cstr name).take 16

/-- The name held by the 16-byte name field of an entry: the bytes up to the
first NUL, or all 16 bytes when the field holds no NUL. -/
def field_name (field : List Nat) : List Nat := cstr (field.take 16)

/-- The sum of the counts of a sequence of run records. -/
def run_count_sum (rs : List pixelrun) : Nat := (rs.map (fun r => r.count)).sum

/-- The value of `offchange` of `update_header` at the start of iteration `j`
of the outer loop, from the value `offchange` at the start of the list. -/
def offchange_at : List imgdata_file → List arg → Int → Nat → Int
  | [], _, offchange, _ => offchange
  | _ :: _, _, offchange, 0 => offchange
  | f :: rest, ufile, offchange, j + 1 =>
    offchange_at rest ufile
      (update_entry { f with offset := add_uint_int f.offset offchange } offchange ufile).2 j

/-! ## Writing the header, and main -/

/-- The memory image of an `imgdatahdr`. -/
def hdr_bytes (bimg : imgdatahdr) : List Nat :=
  bimg.magic ++ le32_bytes bimg.unknown ++ le32_bytes bimg.num_files ++
    le32_bytes bimg.padding_a ++ le32_bytes bimg.padding_b

/-- The function `write_file_header` on a stream without write errors: the
bytes written from the start of the file.  The second `fwrite` returns
`num_files`, which is stored in an `int` and tested by `write <= 0`; when the
test holds, line 282 calls `free(imgs)` on the `imgdata_file **` argument,
the address of the variable of `main`, which `malloc` has not returned: the
process is aborted.  Without write errors the function never returns
`EXIT_FAILURE`. -/
def write_file_header (bimg : imgdatahdr) (imgs : List imgdata_file) : outcome (List Nat) :=
  if bimg.num_files = 0 ∨ 2147483648 ≤ bimg.num_files then outcome.abort
  else outcome.ok (hdr_bytes bimg ++ (imgs.take bimg.num_files).flatMap file_bytes)

def RUN_NONE : Nat := 0
def RUN_LIST : Nat := 1
def RUN_EXTRACT : Nat := 2
def RUN_UPDATE : Nat := 3
def RUN_REPLACE : Nat := 4
def RUN_CREATE : Nat := 5

/-- What a run of `main` does: the exit status (`none` when the process is
aborted before `main` returns), whether
`print_usage("not a valid imgdata.img")` is called, the header and table that
`list_header_info` prints, the files that `extract_contents` creates, the
bytes that `write_file_header` writes and the payloads that `write_file_imgs`
or `write_file_args` writes. -/
structure main_result where
  status : Option Nat
  invalid : Bool
  listed : Option (imgdatahdr × List imgdata_file)
  files : List (List Nat × List (List rgb))
  header : Option (List Nat)
  payloads : Option (List (List Nat))
deriving DecidableEq, Repr

/-- The result of a run that does nothing and returns `status`. -/
def main_result.idle (status : Nat) : main_result :=
  { status := some status, invalid := false, listed := none, files := [], header := none,
    payloads := none }

/-- The result of a run in which the process is aborted, nothing being done
before. -/
def main_result.killed : main_result :=
  { status := none, invalid := false, listed := none, files := [], header := none,
    payloads := none }

/-- The function `main` from the point where the mode is known, on a container
that `fopen` opens with the bytes `img`; `ufile` holds the arguments as
`parse_args` and, for replace and create, `parse_png_files` leave them.  Every
case of the `switch` ends in `break` and so in `return EXIT_SUCCESS`, unless
the process is aborted in `read_file_header`, `extract_contents` or
`write_file_header`.  On the paths where `read_file_header` returns before
its `malloc`, the variable `imgs` of `main` has no value at the final
`if (imgs != NULL) free(imgs)`; it is taken to be `NULL` there. -/
def main (malloc : Nat → Bool) (png : libpng) (mode : Nat) (img : List Nat)
    (ufile : List arg) : main_result :=
  if mode = RUN_NONE then main_result.idle EXIT_FAILURE
  else if mode = RUN_LIST then
    match read_file_header malloc img with
    | outcome.failure => { main_result.idle EXIT_SUCCESS with invalid := true }
    | outcome.abort => main_result.killed
    | outcome.ok r => { main_result.idle EXIT_SUCCESS with listed := some r }
  else if mode = RUN_EXTRACT then
    match read_file_header malloc img with
    | outcome.failure => { main_result.idle EXIT_SUCCESS with invalid := true }
    | outcome.abort => main_result.killed
    | outcome.ok r =>
      if (extract_contents png img r.2).2 then
        { main_result.killed with files := (extract_contents png img r.2).1 }
      else { main_result.idle EXIT_SUCCESS with files := (extract_contents png img r.2).1 }
  else if mode = RUN_UPDATE then
    match read_file_header malloc img with
    | outcome.failure => { main_result.idle EXIT_SUCCESS with invalid := true }
    | outcome.abort => main_result.killed
    | outcome.ok r =>
      match write_file_header r.1 (update_header r.2 ufile) with
      | outcome.ok h => { main_result.idle EXIT_SUCCESS with header := some h }
      | outcome.failure => main_result.idle EXIT_SUCCESS
      | outcome.abort => main_result.killed
  else if mode = RUN_REPLACE then
    match read_file_header malloc img with
    | outcome.failure => { main_result.idle EXIT_SUCCESS with invalid := true }
    | outcome.abort => main_result.killed
    | outcome.ok r =>
      match read_file_imgs img r.2 with
      | none => main_result.idle EXIT_SUCCESS
      | some conts =>
        match write_file_header r.1 (update_header r.2 ufile) with
        | outcome.ok h =>
          { main_result.idle EXIT_SUCCESS with
            header := some h, payloads := write_file_imgs conts ufile }
        | outcome.failure => main_result.idle EXIT_SUCCESS
        | outcome.abort => main_result.killed
  else if mode = RUN_CREATE then
    match write_file_header (create_file_header ufile).1
        (update_header (create_file_header ufile).2 ufile) with
    | outcome.ok h =>
      { main_result.idle EXIT_SUCCESS with header := some h, payloads := write_file_args ufile }
    | outcome.failure => main_result.idle EXIT_SUCCESS
    | outcome.abort => main_result.killed
  else main_result.idle EXIT_FAILURE

/-- An entry whose fields fit their C types: a name of 16 bytes and six values
of `unsigned int`. -/
def file_ok (f : imgdata_file) : Prop :=
  f.name.length = 16 ∧ f.imgwidth < 4294967296 ∧ f.imgheight < 4294967296 ∧
    f.scrxpos < 4294967296 ∧ f.scrypos < 4294967296 ∧ f.offset < 4294967296 ∧
    f.size < 4294967296

instance (f : imgdata_file) : Decidable (file_ok f) :=
  inferInstanceAs (Decidable (_ ∧ _))

/-- A list of bytes: every element is below 256. -/
def bytes_ok (b : List Nat) : Prop := ∀ x ∈ b, x < 256

instance (b : List Nat) : Decidable (bytes_ok b) :=
  inferInstanceAs (Decidable (∀ x ∈ b, x < 256))

/-- A container of one entry whose name field holds the 16 characters
"abcdefghijklmnop" and no NUL, for an image of 300 by 1 pixels. -/
def img_long_name : List Nat :=
  hdr_bytes ⟨IMGDATA_MAGIC, 1, 1, 0, 0⟩
    ++ file_bytes ⟨[97, 98, 99, 100, 101, 102, 103, 104, 105, 106, 107, 108, 109, 110, 111, 112],
        300, 1, 0, 0, 1024, 8⟩
    ++ List.replicate 960 0
    ++ [255, 9, 9, 9, 45, 9, 9, 9] ++ List.replicate 504 0

/-! ## parse_args -/

/-- The tokens that successive calls of `strtok(.., ":")` return on a string:
the maximal runs of characters other than ':' in order, `cur` being the token
under way. -/
def strtok_all : List Nat → List Nat → List (List Nat)
  | [], cur => if cur = [] then [] else [cur]
  | c :: cs, cur =>
    if c = 58 then (if cur = [] then strtok_all cs [] else cur :: strtok_all cs [])
    else strtok_all cs (cur ++ [c])

/-- The string at `args[i]` after the first call of `strtok`, which has put a
NUL at the end of the first token: the leading ':' characters, then the first
token. -/
def arg_string (s : List Nat) : List Nat :=
  (cstr s).takeWhile (fun c => c == 58) ++ (strtok_all (cstr s) []).headD []

/-- The conversion `(unsigned int)` of the `long` that `strtol` returns. -/
def to_uint (v : Int) : Nat := (v % 4294967296).toNat

/-- The X-pos step of `parse_args` on the token `tok`, `none` standing for
`NULL`; `strtol` is the C library function. -/
def parse_x (strtol : List Nat → Int) (tok : Option (List Nat)) (a : arg) : arg :=
  match tok with
  | none => a
  | some t =>
    if t.headD 0 = 45 then a
    else { a with x := to_uint (strtol t), mark := (a.mark + MARK_X) % 256 }

/-- The Y-pos step of `parse_args`. -/
def parse_y (strtol : List Nat → Int) (tok : Option (List Nat)) (a : arg) : arg :=
  match tok with
  | none => a
  | some t =>
    if t.headD 0 = 45 then a
    else { a with y := to_uint (strtol t), mark := (a.mark + MARK_Y) % 256 }

/-- The width step of `parse_args`. -/
def parse_w (strtol : List Nat → Int) (tok : Option (List Nat)) (a : arg) : arg :=
  match tok with
  | none => a
  | some t =>
    if t.headD 0 = 45 then a
    else { a with w := to_uint (strtol t), mark := (a.mark + MARK_W) % 256 }

/-- The height step of `parse_args`. -/
def parse_h (strtol : List Nat → Int) (tok : Option (List Nat)) (a : arg) : arg :=
  match tok with
  | none => a
  | some t =>
    if t.headD 0 = 45 then a
    else { a with h := to_uint (strtol t), mark := (a.mark + MARK_H) % 256 }

/-- The body of the loop of `parse_args` for the argument string `s`, on the
element `a` of `ifile` as it is before (not initialised by `main`).  The
result is `none` when the string holds no token, in which case `strncpy` is
called on `NULL`. -/
def parse_arg (strtol : List Nat → Int) (s : List Nat) (a : arg) : Option arg :=
  match strtok_all (cstr s) [] with
  | [] =>
    match strrchr (arg_string s) 46 with
    | some dot => if IMGDATA_FILE_NAME_SIZE < dot then some { a with mark := 0 } else none
    | none => none
  | str :: rest =>
    if (match strrchr (arg_string s) 46 with
        | some dot => decide (IMGDATA_FILE_NAME_SIZE < dot)
        | none => decide (IMGDATA_FILE_NAME_SIZE < str.length)) || decide (20 < str.length) then
      some { a with mark := 0 }
    else
      some (parse_h strtol rest[3]? (parse_w strtol rest[2]? (parse_y strtol rest[1]?
        (parse_x strtol rest[0]? { a with mark := 0, name := strncpy str 20 ++ [0] }))))

/-- The function `parse_args` on the argument strings and the array `ifile`
as it is before the call, `none` when a call of `strncpy` on `NULL` stops the
program. -/
def parse_args (strtol : List Nat → Int) : List (List Nat) → List arg → Option (List arg)
  | [], _ => some []
  | s :: ss, ifile =>
    match parse_arg strtol s (ifile.headD ⟨[], 0, 0, 0, 0, 0, 0, 0, []⟩) with
    | none => none
    | some a =>
      match parse_args strtol ss ifile.tail with
      | none => none
      | some as => some (a :: as)

/-- A stand-in for `strtol` on strings of decimal digits. -/
def strtol_decimal (t : List Nat) : Int :=
  ((t.foldl (fun acc c => acc * 10 + (c - 48)) 0 : Nat) : Int)

/-! ## The file written by create -/

/-- The call `ftruncate(fd, n)` on a file with the bytes `file`: the file is
cut to `n` bytes, or extended to `n` bytes with NUL bytes. -/
def ftruncate (file : List Nat) (n : Nat) : List Nat :=
  file.take n ++ List.replicate (n - file.length) 0

/-- The bytes of the file after `main` in create mode, when every write
succeeds: `fopen` with mode "wb" empties the file, `write_file_header` writes
the header and the table from byte 0 on, and `write_file_args` truncates the
file to `IMGDATA_FILE_OFFSET_START` bytes and writes the payloads from there
on.  `none` stands for a run in which a write fails or the process is
aborted. -/
def create_file (malloc : Nat → Bool) (png : libpng) (ufile : List arg) : Option (List Nat) :=
  match (main malloc png RUN_CREATE [] ufile).header,
      (main malloc png RUN_CREATE [] ufile).payloads with
  | some h, some ps => some (ftruncate h IMGDATA_FILE_OFFSET_START ++ ps.flatten)
  | _, _ => none

/-! ## Stand-ins for the C library and libpng -/

/-- A stand-in for `malloc` that returns a pointer for every size, as glibc
does for the sizes at hand, the size 0 included. -/
def malloc_ok (_ : Nat) : Bool := true

/-- A stand-in for libpng: the structs are created, the header and every row
are accepted, and `png_write_end` raises an error when fewer rows than the
height have been written. -/
def libpng_rows : libpng :=
  { create_write_struct := true
    create_info_struct := true
    write_info := fun _ _ => true
    write_row := fun _ _ _ => true
    write_end := fun _ h n => decide (h ≤ n) }

/-! # Theorems -/

set_option maxRecDepth 1000000

/-! ## Lemmas about update_header -/

theorem add_uint_int_zero (a : Nat) (h : a < 4294967296) : add_uint_int a 0 = a := by
  unfold add_uint_int
  omega

theorem name_matches_congr (u : arg) (f g : imgdata_file) (h : g.name = f.name) :
    name_matches u g = name_matches u f := by
  unfold name_matches
  rw [h]

theorem apply_marks_name (u : arg) (f : imgdata_file) (oc : Int) :
    (apply_marks u f oc).1.name = f.name := by
  rfl

theorem apply_marks_offset (u : arg) (f : imgdata_file) (oc : Int) :
    (apply_marks u f oc).1.offset = f.offset := by
  rfl

theorem update_one_name (st : imgdata_file × Int) (u : arg) :
    (update_one st u).1.name = st.1.name := by
  unfold update_one
  split_ifs
  · exact apply_marks_name u st.1 st.2
  · rfl

theorem update_one_offset (st : imgdata_file × Int) (u : arg) :
    (update_one st u).1.offset = st.1.offset := by
  unfold update_one
  split_ifs
  · exact apply_marks_offset u st.1 st.2
  · rfl

theorem foldl_update_one_name (ufile : List arg) (st : imgdata_file × Int) :
    (ufile.foldl update_one st).1.name = st.1.name := by
  induction ufile generalizing st with
  | nil => rfl
  | cons u us ih => rw [List.foldl_cons, ih, update_one_name]

theorem foldl_update_one_offset (ufile : List arg) (st : imgdata_file × Int) :
    (ufile.foldl update_one st).1.offset = st.1.offset := by
  induction ufile generalizing st with
  | nil => rfl
  | cons u us ih => rw [List.foldl_cons, ih, update_one_offset]

/-- The entry at index `j` of the result of the outer loop is the entry of the
input at `j`, shifted by the value `offchange` has reached, after the inner
loop. -/
theorem update_header_loop_get (imgs : List imgdata_file) (ufile : List arg) (oc : Int)
    (j : Nat) (hj : j < imgs.length) :
    ∃ oc' : Int, (update_header_loop imgs ufile oc)[j]? =
      some (update_entry { imgs.get ⟨j, hj⟩ with
        offset := add_uint_int (imgs.get ⟨j, hj⟩).offset oc' } oc' ufile).1 := by
  induction imgs generalizing oc j with
  | nil => simp at hj
  | cons f rest ih =>
    cases j with
    | zero => exact ⟨oc, by simp [update_header_loop]⟩
    | succ j =>
      have hj' : j < rest.length := by simpa using hj
      obtain ⟨oc', h⟩ := ih (update_entry { f with offset := add_uint_int f.offset oc } oc ufile).2 j hj'
      exact ⟨oc', by simpa [update_header_loop] using h⟩

theorem apply_marks_fields (u : arg) (f : imgdata_file) (oc : Int) :
    (apply_marks u f oc).1.scrxpos = (if u.mark &&& MARK_X ≠ 0 then u.x else f.scrxpos) ∧
    (apply_marks u f oc).1.scrypos = (if u.mark &&& MARK_Y ≠ 0 then u.y else f.scrypos) ∧
    (apply_marks u f oc).1.imgwidth = (if u.mark &&& MARK_W ≠ 0 then u.w else f.imgwidth) ∧
    (apply_marks u f oc).1.imgheight = (if u.mark &&& MARK_H ≠ 0 then u.h else f.imgheight) ∧
    (apply_marks u f oc).1.size = (if u.mark &&& MARK_S ≠ 0 then u.size else f.size) := by
  exact ⟨rfl, rfl, rfl, rfl, rfl⟩

/-- Without a matching size-marked argument the inner loop leaves `offchange`
as it is. -/
theorem update_entry_offchange (ufile : List arg) (f : imgdata_file) (oc : Int)
    (h : ∀ u ∈ ufile, name_matches u f = true → u.mark &&& MARK_S = 0) :
    (update_entry f oc ufile).2 = oc := by
  unfold update_entry
  induction ufile generalizing f oc with
  | nil => rfl
  | cons u us ih =>
    rw [List.foldl_cons]
    have hu := h u (List.mem_cons_self u us)
    have hst : (update_one (f, oc) u).2 = oc := by
      unfold update_one
      split_ifs with hm
      · have h0 := hu hm
        unfold apply_marks
        simp [h0]
      · rfl
    have hnm : (update_one (f, oc) u).1.name = f.name := update_one_name (f, oc) u
    have := ih (update_one (f, oc) u).1 (update_one (f, oc) u).2 (by
      intro v hv hmv
      rw [name_matches_congr v f _ hnm] at hmv
      exact h v (List.mem_cons_of_mem u hv) hmv)
    rw [this, hst]

theorem update_header_loop_frame (imgs : List imgdata_file) (ufile : List arg)
    (j : Nat) (hj : j < imgs.length)
    (hno : ∀ k (hk : k < imgs.length), k < j → ∀ u ∈ ufile,
      name_matches u (imgs.get ⟨k, hk⟩) = true → u.mark &&& MARK_S = 0) :
    (update_header_loop imgs ufile 0)[j]? =
      some (update_entry { imgs.get ⟨j, hj⟩ with
        offset := add_uint_int (imgs.get ⟨j, hj⟩).offset 0 } 0 ufile).1 := by
  induction imgs generalizing j with
  | nil => simp at hj
  | cons f rest ih =>
    cases j with
    | zero => simp [update_header_loop]
    | succ j =>
      have hj' : j < rest.length := by simpa using hj
      have h0 : (update_entry { f with offset := add_uint_int f.offset 0 } 0 ufile).2 = 0 := by
        apply update_entry_offchange
        intro u hu hm
        exact hno 0 (by simp) (by omega) u hu (by simpa [name_matches] using hm)
      have := ih j hj' (by
        intro k hk hkj u hu hm
        exact hno (k + 1) (by simpa using hk) (by omega) u hu (by simpa using hm))
      simp only [update_header_loop, h0]
      simpa using this

/-! ## Claims about update_header -/

/-- C1, evaluated where the code departs from it.  The table holds an entry of
size 100 at offset 1024 and an entry at offset 1536; one size-marked argument
gives the first entry the size 512.  Both sizes fill one block, so the claim
keeps the second offset at 1536; `update_header` counts `512 / 512 + 1 = 2`
blocks for the new size and moves the second entry to 2048. -/
theorem update_header_counts_extra_block :
    (update_header
        [⟨name_boot, 5, 5, 0, 0, 1024, 100⟩, ⟨name_bootloader, 1, 1, 0, 0, 1536, 600⟩]
        [⟨arg_boot_png, 0, 0, 128, 1, 512, 512, 28, []⟩]).map (fun f => (f.offset, f.size))
      = [(1024, 512), (2048, 600)]
    ∧ (1536 + 512 * (ceil_blocks 512 - ceil_blocks 100)) % 4294967296 = 1536 := by
  decide

/-- C2, evaluated where the code departs from it.  The table holds an entry of
size 512 at offset 1024 and the next entry at offset 1536, which satisfies the
layout invariant; one size-marked argument gives the first entry the size 1000.
`update_header` counts two blocks for the old and for the new size, leaves the
second offset at 1536, and the first entry now ends at 2048: the invariant is
lost. -/
theorem update_header_breaks_layout :
    layout_ok [⟨name_boot, 128, 1, 0, 0, 1024, 512⟩, ⟨name_bootloader, 1, 1, 0, 0, 1536, 4⟩]
      = true
    ∧ (update_header
        [⟨name_boot, 128, 1, 0, 0, 1024, 512⟩, ⟨name_bootloader, 1, 1, 0, 0, 1536, 4⟩]
        [⟨arg_boot_png, 0, 0, 250, 1, 1000, 1024, 28, []⟩]).map (fun f => (f.offset, f.size))
      = [(1024, 1000), (1536, 4)]
    ∧ layout_ok (update_header
        [⟨name_boot, 128, 1, 0, 0, 1024, 512⟩, ⟨name_bootloader, 1, 1, 0, 0, 1536, 4⟩]
        [⟨arg_boot_png, 0, 0, 250, 1, 1000, 1024, 28, []⟩]) = false := by
  decide

/-- C3, evaluated where the code departs from it.  Create is run on a PNG of
128 alternating pixels, which encodes to 128 runs (size 512, bsize 512), and a
PNG of one pixel.  `write_file_args` writes the second payload at 1024 + 512 =
1536, and the table made by `create_file_header` and `update_header` stores
the offset 2048 for it. -/
theorem create_offset_past_payload :
    ((png_arg arg_boot_png 128 [stripes 128]).size,
      (png_arg arg_boot_png 128 [stripes 128]).bsize) = (512, 512)
    ∧ (update_header
        (create_file_header [png_arg arg_boot_png 128 [stripes 128],
          png_arg arg_bootloader_png 1 [[⟨255, 0, 0⟩]]]).2
        [png_arg arg_boot_png 128 [stripes 128],
          png_arg arg_bootloader_png 1 [[⟨255, 0, 0⟩]]]).map (fun f => f.offset)
      = [1024, 2048]
    ∧ (write_file_args [png_arg arg_boot_png 128 [stripes 128],
          png_arg arg_bootloader_png 1 [[⟨255, 0, 0⟩]]]).map
        (payload_positions IMGDATA_FILE_OFFSET_START)
      = some [1024, 1536] := by
  decide

/-! ## Claims about the fields that update_header writes -/

/-- C7.  For every table and a single argument whose name matches the entry at
index `j`, the entry at `j` after `update_header` has in each of the fields x,
y, width, height and size the value of the argument when the mark bit of the
field is set and the stored value otherwise; with only `MARK_X` set, the
fields y, width, height and size are the stored ones. -/
theorem update_header_sparse_fields (imgs : List imgdata_file) (u : arg) (j : Nat)
    (hj : j < imgs.length) (hm : name_matches u (imgs.get ⟨j, hj⟩) = true) :
    ∃ f, (update_header imgs [u])[j]? = some f ∧
      f.scrxpos = (if u.mark &&& MARK_X ≠ 0 then u.x else (imgs.get ⟨j, hj⟩).scrxpos) ∧
      f.scrypos = (if u.mark &&& MARK_Y ≠ 0 then u.y else (imgs.get ⟨j, hj⟩).scrypos) ∧
      f.imgwidth = (if u.mark &&& MARK_W ≠ 0 then u.w else (imgs.get ⟨j, hj⟩).imgwidth) ∧
      f.imgheight = (if u.mark &&& MARK_H ≠ 0 then u.h else (imgs.get ⟨j, hj⟩).imgheight) ∧
      f.size = (if u.mark &&& MARK_S ≠ 0 then u.size else (imgs.get ⟨j, hj⟩).size) ∧
      (u.mark = MARK_X →
        f.scrxpos = u.x ∧
        f.scrypos = (imgs.get ⟨j, hj⟩).scrypos ∧
        f.imgwidth = (imgs.get ⟨j, hj⟩).imgwidth ∧
        f.imgheight = (imgs.get ⟨j, hj⟩).imgheight ∧
        f.size = (imgs.get ⟨j, hj⟩).size) := by
  obtain ⟨oc, h⟩ := update_header_loop_get imgs [u] 0 j hj
  refine ⟨_, h, ?_⟩
  have hm' : name_matches u { imgs.get ⟨j, hj⟩ with
      offset := add_uint_int (imgs.get ⟨j, hj⟩).offset oc } = true :=
    (name_matches_congr u (imgs.get ⟨j, hj⟩) _ rfl).trans hm
  have hone : update_entry { imgs.get ⟨j, hj⟩ with
      offset := add_uint_int (imgs.get ⟨j, hj⟩).offset oc } oc [u]
      = apply_marks u { imgs.get ⟨j, hj⟩ with
          offset := add_uint_int (imgs.get ⟨j, hj⟩).offset oc } oc := by
    simp only [update_entry, List.foldl_cons, List.foldl_nil, update_one, hm', if_true]
  rw [hone]
  obtain ⟨hx, hy, hw, hh, hs⟩ := apply_marks_fields u { imgs.get ⟨j, hj⟩ with
      offset := add_uint_int (imgs.get ⟨j, hj⟩).offset oc } oc
  refine ⟨hx, hy, hw, hh, hs, ?_⟩
  intro hmark
  rw [hx, hy, hw, hh, hs, hmark]
  exact ⟨if_pos (by decide), if_neg (by decide), if_neg (by decide), if_neg (by decide),
    if_neg (by decide)⟩

/-- Witness of C7: the argument "boot.png" with only `MARK_X` set and x = 77,
on a table whose first entry is "boot". -/
theorem update_header_sparse_fields_witness :
    name_matches ⟨arg_boot_png, 77, 5, 6, 7, 8, 9, 1, []⟩
      ([⟨name_boot, 10, 20, 30, 40, 1024, 100⟩,
        ⟨name_bootloader, 1, 1, 0, 0, 1536, 600⟩].get ⟨0, by decide⟩) = true
    ∧ ∃ f, (update_header [⟨name_boot, 10, 20, 30, 40, 1024, 100⟩,
        ⟨name_bootloader, 1, 1, 0, 0, 1536, 600⟩]
        [⟨arg_boot_png, 77, 5, 6, 7, 8, 9, 1, []⟩])[0]? = some f ∧
      f.scrxpos = 77 ∧ f.scrypos = 40 ∧ f.imgwidth = 10 ∧ f.imgheight = 20 ∧ f.size = 100 := by
  refine ⟨by decide, ?_⟩
  obtain ⟨f, hf, _, _, _, _, _, h⟩ := update_header_sparse_fields
    [⟨name_boot, 10, 20, 30, 40, 1024, 100⟩, ⟨name_bootloader, 1, 1, 0, 0, 1536, 600⟩]
    ⟨arg_boot_png, 77, 5, 6, 7, 8, 9, 1, []⟩ 0 (by decide) (by decide)
  exact ⟨f, hf, h rfl⟩

/-- C10.  For every table and argument list, an entry at index `j` keeps its
offset when no entry before `j` is matched by a size-marked argument: so the
first entry keeps its offset, and so does every entry up to and including the
first one that a size-marked argument resizes.  Offsets are values of
`unsigned int`. -/
theorem update_header_offset_frame (imgs : List imgdata_file) (ufile : List arg) (j : Nat)
    (hj : j < imgs.length) (hoff : (imgs.get ⟨j, hj⟩).offset < 4294967296)
    (hno : ∀ k (hk : k < imgs.length), k < j → ∀ u ∈ ufile,
      name_matches u (imgs.get ⟨k, hk⟩) = true → u.mark &&& MARK_S = 0) :
    ∃ f, (update_header imgs ufile)[j]? = some f ∧ f.offset = (imgs.get ⟨j, hj⟩).offset := by
  refine ⟨_, update_header_loop_frame imgs ufile j hj hno, ?_⟩
  unfold update_entry
  rw [foldl_update_one_offset]
  exact add_uint_int_zero _ hoff

/-- Witness of C10: the second entry is the first one that the size-marked
argument "bootloader.png" resizes, and keeps its offset. -/
theorem update_header_offset_frame_witness :
    ∃ f, (update_header [⟨name_boot, 10, 20, 30, 40, 1024, 100⟩,
        ⟨name_bootloader, 1, 1, 0, 0, 1536, 600⟩]
        [⟨arg_bootloader_png, 0, 0, 3, 3, 1300, 1536, 28, []⟩])[1]? = some f ∧
      f.offset = 1536 :=
  update_header_offset_frame
    [⟨name_boot, 10, 20, 30, 40, 1024, 100⟩, ⟨name_bootloader, 1, 1, 0, 0, 1536, 600⟩]
    [⟨arg_bootloader_png, 0, 0, 3, 3, 1300, 1536, 28, []⟩] 1 (by decide) (by decide)
    (by
      intro k hk hkj u hu
      have hk0 : k = 0 := by omega
      subst hk0
      simp only [List.mem_singleton] at hu
      subst hu
      change name_matches _ (⟨name_boot, 10, 20, 30, 40, 1024, 100⟩ : imgdata_file) = true → _
      decide)

/-! ## Lemmas about the run-length codec -/

/-! ### The filling loop as a function of the pixel stream -/

theorem range_map_getD (row : List rgb) (d : rgb) :
    (List.range row.length).map (fun k => row.getD k d) = row := by
  apply List.ext_getElem
  · simp
  · intro n h1 h2
    simp [List.getElem?_eq_getElem h2]

theorem fill_row_eq (width : Nat) (st : fill_state) (row : List rgb) (h : row.length = width) :
    fill_row width st row = row.foldl fill_pixel st := by
  unfold fill_row
  subst h
  conv_rhs => rw [← range_map_getD row ⟨0, 0, 0⟩]
  rw [List.foldl_map]

theorem foldl_fill_row_eq (width : Nat) (rows : List (List rgb)) (st : fill_state)
    (h : is_grid width rows) :
    rows.foldl (fill_row width) st = (pixel_stream rows).foldl fill_pixel st := by
  induction rows generalizing st with
  | nil => rfl
  | cons row rest ih =>
    have hrow : row.length = width := h row (List.mem_cons_self _ _)
    have hrest : is_grid width rest := fun r hr => h r (List.mem_cons_of_mem _ hr)
    simp only [List.foldl_cons, pixel_stream, List.flatten_cons, List.foldl_append]
    rw [fill_row_eq width st row hrow]
    exact ih _ hrest

theorem foldl_fill_pixel_runs (ps : List rgb) (st : fill_state) :
    (ps.foldl fill_pixel st).content ++ [(ps.foldl fill_pixel st).run]
      = st.content ++ runs_from st.run ps := by
  induction ps generalizing st with
  | nil => rfl
  | cons p ps ih =>
    rw [List.foldl_cons, ih]
    unfold fill_pixel
    rw [runs_from]
    split_ifs <;> simp

/-- The first pixel of a grid with at least one row and one column. -/
theorem pixel_stream_cons (width : Nat) (rows : List (List rgb)) (h : is_grid width rows)
    (hw : 1 ≤ width) (hh : 1 ≤ rows.length) :
    ∃ p ps, pixel_stream rows = p :: ps ∧ (rows.getD 0 []).getD 0 ⟨0, 0, 0⟩ = p := by
  cases rows with
  | nil => simp at hh
  | cons row rest =>
    have hrow : row.length = width := h row (List.mem_cons_self _ _)
    cases row with
    | nil => simp at hrow; omega
    | cons p ps => exact ⟨p, ps ++ pixel_stream rest, by simp [pixel_stream], by simp⟩

/-- The run records of the encoder, as a function of the pixel stream. -/
theorem fill_runs_eq (width : Nat) (rows : List (List rgb)) (h : is_grid width rows)
    (hw : 1 ≤ width) (hh : 1 ≤ rows.length) :
    ∃ p ps, pixel_stream rows = p :: ps ∧
      fill_runs width rows = runs_from ⟨1, p.red, p.green, p.blue⟩ ps := by
  obtain ⟨p, ps, hps, hp⟩ := pixel_stream_cons width rows h hw hh
  refine ⟨p, ps, hps, ?_⟩
  unfold fill_runs fill
  rw [foldl_fill_row_eq width rows _ h, foldl_fill_pixel_runs, hps]
  simp only [fill_init, hp, List.nil_append]
  rw [runs_from]
  simp

/-! ### Run counts stay between 1 and 255 -/

theorem runs_from_count (ps : List rgb) (cur : pixelrun)
    (h : 1 ≤ cur.count ∧ cur.count ≤ 255) :
    ∀ r ∈ runs_from cur ps, 1 ≤ r.count ∧ r.count ≤ 255 := by
  induction ps generalizing cur with
  | nil =>
    intro r hr
    simp only [runs_from, List.mem_singleton] at hr
    subst hr
    exact h
  | cons p ps ih =>
    intro r hr
    rw [runs_from] at hr
    split_ifs at hr with hc
    · exact ih _ ⟨by simp, by have := hc.1; simp only; omega⟩ r hr
    · rcases List.mem_cons.1 hr with hr | hr
      · subst hr
        exact h
      · exact ih _ ⟨by simp, by simp⟩ r hr

/-! ### Decoding the records of the encoder -/

theorem put_run_eq (imgwidth : Nat) (r : pixelrun) (n : Nat) (s : png_state) :
    put_run imgwidth r n s = (List.replicate n r.colour).foldl (put_rgb imgwidth) s := by
  induction n generalizing s with
  | zero => rfl
  | succ n ih =>
    rw [put_run, ih, List.replicate_succ, List.foldl_cons]
    rfl

theorem foldl_put_run_eq (imgwidth : Nat) (rs : List pixelrun) (s : png_state) :
    rs.foldl (fun s r => put_run imgwidth r r.count s) s
      = (expand_runs rs).foldl (put_rgb imgwidth) s := by
  induction rs generalizing s with
  | nil => rfl
  | cons r rs ih =>
    simp only [List.foldl_cons, expand_runs, List.flatMap_cons, List.foldl_append]
    rw [put_run_eq]
    exact ih _

theorem expand_runs_from (ps : List rgb) (cur : pixelrun) :
    expand_runs (runs_from cur ps) = List.replicate cur.count cur.colour ++ ps := by
  induction ps generalizing cur with
  | nil => simp [runs_from, expand_runs]
  | cons p ps ih =>
    rw [runs_from]
    split_ifs with hc
    · rw [ih]
      obtain ⟨_, h1, h2, h3⟩ := hc
      have hp : p = cur.colour := by
        cases p
        simp only [pixelrun.colour] at *
        simp [h1, h2, h3]
      simp only [pixelrun.colour] at *
      rw [List.replicate_succ', hp]
      simp
    · have := ih { count := 1, red := p.red, green := p.green, blue := p.blue }
      simp only [expand_runs, List.flatMap_cons] at this ⊢
      rw [this]
      simp [pixelrun.colour]

/-- Storing the pixels of one row into the buffer fills it and writes it. -/
theorem foldl_put_rgb_row (w : Nat) (hw : 3 * w < 4294967296) (ps : List rgb) :
    ∀ (s : png_state) (m : Nat), s.j = 3 * m → s.row.length = w → m + ps.length = w →
      ps ≠ [] →
      ps.foldl (put_rgb w) s
        = { row := s.row.take m ++ ps, j := 0, written := s.written ++ [s.row.take m ++ ps] } := by
  induction ps with
  | nil => intro s m _ _ _ h; exact absurd rfl h
  | cons p ps ih =>
    intro s m hj hlen hm _
    have hdiv : s.j / 3 = m := by omega
    have hset : (s.row.set m p).take (m + 1) = s.row.take m ++ [p] := by
      rw [List.set_eq_take_append_cons_drop]
      have : m < s.row.length := by simp at hm; omega
      simp only [this, if_true]
      rw [List.take_append_eq_append_take]
      simp [List.length_take, Nat.min_eq_left (Nat.le_of_lt this)]
    cases ps with
    | nil =>
      simp only [List.length_cons, List.length_nil] at hm
      simp only [List.foldl_cons, List.foldl_nil, put_rgb, hdiv]
      have hc : (s.j + 3) % 4294967296 = (w * 3) % 4294967296 := by
        rw [Nat.mod_eq_of_lt (by omega), Nat.mod_eq_of_lt (by omega)]; omega
      have hfull : s.row.set m p = s.row.take m ++ [p] := by
        rw [← hset, List.take_of_length_le]
        simp; omega
      simp only [hc, if_true, hfull]
    | cons q qs =>
      simp only [List.length_cons] at hm
      have hc : ¬ (s.j + 3) % 4294967296 = (w * 3) % 4294967296 := by
        rw [Nat.mod_eq_of_lt (by omega), Nat.mod_eq_of_lt (by omega)]; omega
      rw [List.foldl_cons]
      have hstep : put_rgb w s p = { row := s.row.set m p, j := s.j + 3, written := s.written } := by
        simp only [put_rgb, hdiv, hc, if_false]
      rw [hstep, ih _ (m + 1) (by simp only; omega) (by simp [hlen]) (by simp; omega) (by simp)]
      simp only [hset, List.append_assoc, List.singleton_append]

/-- Storing the pixel stream of a grid writes the rows of the grid. -/
theorem foldl_put_rgb_grid (w : Nat) (hw : 3 * w < 4294967296) (hw1 : 1 ≤ w)
    (rows : List (List rgb)) :
    ∀ (s : png_state), s.j = 0 → s.row.length = w → is_grid w rows →
      ((pixel_stream rows).foldl (put_rgb w) s).written = s.written ++ rows := by
  induction rows with
  | nil => intro s _ _ _; simp [pixel_stream]
  | cons row rest ih =>
    intro s hj hlen hg
    have hrow : row.length = w := hg row (List.mem_cons_self _ _)
    have hrest : is_grid w rest := fun r hr => hg r (List.mem_cons_of_mem _ hr)
    have hne : row ≠ [] := by
      intro h; subst h; simp at hrow; omega
    simp only [pixel_stream, List.flatten_cons, List.foldl_append]
    rw [foldl_put_rgb_row w hw row s 0 (by omega) hlen (by omega) hne]
    have := ih { row := s.row.take 0 ++ row, j := 0, written := s.written ++ [s.row.take 0 ++ row] }
      rfl (by simp [hrow]) hrest
    simp only [pixel_stream] at this
    rw [this]
    simp

/-! ### The encoder produces the least number of records -/

/-- Pixels of the colour of the run being filled are absorbed by it while its
count stays within 255. -/
theorem runs_from_absorb (m : Nat) (rest : List rgb) :
    ∀ cur : pixelrun, cur.count + m ≤ 255 →
      runs_from cur (List.replicate m cur.colour ++ rest)
        = runs_from { cur with count := cur.count + m } rest := by
  induction m with
  | zero => intro cur _; rfl
  | succ m ih =>
    intro cur h
    rw [List.replicate_succ, List.cons_append, runs_from]
    have hc : cur.count ≠ 255 ∧ cur.red = cur.colour.red ∧ cur.green = cur.colour.green ∧
        cur.blue = cur.colour.blue := ⟨by omega, rfl, rfl, rfl⟩
    rw [if_pos hc]
    have := ih { cur with count := cur.count + 1 } (by simp only; omega)
    simp only [pixelrun.colour] at this ⊢
    rw [this]
    congr 2
    omega

/-- At most one record is closed while at most 255 pixels of one colour are
read. -/
theorem runs_from_span (m : Nat) (col : rgb) (rest : List rgb) (hm : m ≤ 255) :
    ∀ cur : pixelrun, ∃ cur' : pixelrun,
      (runs_from cur (List.replicate m col ++ rest)).length ≤ 1 + (runs_from cur' rest).length := by
  induction m with
  | zero => intro cur; exact ⟨cur, by simp⟩
  | succ m ih =>
    intro cur
    rw [List.replicate_succ, List.cons_append, runs_from]
    split_ifs with hc
    · exact ih (by omega) _
    · refine ⟨{ count := 1 + m, red := col.red, green := col.green, blue := col.blue }, ?_⟩
      have := runs_from_absorb m rest (⟨1, col.red, col.green, col.blue⟩ : pixelrun)
        (by simp only; omega)
      simp only [pixelrun.colour] at this
      rw [List.length_cons, this]
      omega

theorem runs_from_expand_le (rs : List pixelrun)
    (hv : ∀ r ∈ rs, 1 ≤ r.count ∧ r.count ≤ 255) :
    ∀ cur : pixelrun, (runs_from cur (expand_runs rs)).length ≤ 1 + rs.length := by
  induction rs with
  | nil => intro cur; simp [expand_runs, runs_from]
  | cons r rs ih =>
    intro cur
    have hr := hv r (List.mem_cons_self _ _)
    have hrs : ∀ r ∈ rs, 1 ≤ r.count ∧ r.count ≤ 255 :=
      fun x hx => hv x (List.mem_cons_of_mem _ hx)
    obtain ⟨cur', h⟩ := runs_from_span r.count r.colour (expand_runs rs) hr.2 cur
    have h2 := ih hrs cur'
    simp only [expand_runs, List.flatMap_cons, List.length_cons] at h h2 ⊢
    omega

/-- The greedy records are no more than the records of any sequence with
counts between 1 and 255 that expands to the same pixels. -/
theorem runs_from_minimal (rs : List pixelrun) (p : rgb) (ps : List rgb)
    (hv : ∀ r ∈ rs, 1 ≤ r.count ∧ r.count ≤ 255) (he : expand_runs rs = p :: ps) :
    (runs_from ⟨1, p.red, p.green, p.blue⟩ ps).length ≤ rs.length := by
  cases rs with
  | nil => simp [expand_runs] at he
  | cons r rs =>
    have hr := hv r (List.mem_cons_self _ _)
    have hrs : ∀ r ∈ rs, 1 ≤ r.count ∧ r.count ≤ 255 :=
      fun x hx => hv x (List.mem_cons_of_mem _ hx)
    obtain ⟨c, hc⟩ : ∃ c, r.count = c + 1 := ⟨r.count - 1, by omega⟩
    simp only [expand_runs, List.flatMap_cons, hc, List.replicate_succ, List.cons_append,
      List.cons.injEq] at he
    obtain ⟨hp, hps⟩ := he
    have hab := runs_from_absorb c (expand_runs rs)
      { count := 1, red := p.red, green := p.green, blue := p.blue } (by simp only; omega)
    have hcol : ({ count := 1, red := p.red, green := p.green, blue := p.blue } : pixelrun).colour
        = r.colour := by rw [hp]; cases p; rfl
    rw [hcol] at hab
    simp only [expand_runs] at hab
    rw [← hps, hab, List.length_cons]
    have := runs_from_expand_le rs hrs (⟨1 + c, p.red, p.green, p.blue⟩ : pixelrun)
    simp only [expand_runs] at this
    omega

/-! ## Claims about the run-length codec -/

theorem parse_png_pixels_some (width : Nat) (rows : List (List rgb))
    (hw : 1 ≤ width) (hh : 1 ≤ rows.length) :
    parse_png_pixels width rows = some
      { size := (((fill width rows).l + 1) * 4) % 4294967296
        bsize := ((fill width rows).blockcount * IMGDATA_FILE_BLOCK_SIZE) % 4294967296
        content := fill_runs width rows ++ List.replicate
          ((((fill width rows).blockcount * IMGDATA_FILE_BLOCK_SIZE) % 4294967296
            - (((fill width rows).l + 1) * 4) % 4294967296) / 4) ⟨0, 0, 0, 0⟩ } := by
  unfold parse_png_pixels
  rw [if_pos ⟨by omega, by omega⟩]
  rfl

theorem fill_runs_length (width : Nat) (rows : List (List rgb)) :
    (fill_runs width rows).length = (fill width rows).l + 1 := by
  simp [fill_runs, fill_state.l]

theorem expand_fill_runs (width : Nat) (rows : List (List rgb)) (hg : is_grid width rows)
    (hw : 1 ≤ width) (hh : 1 ≤ rows.length) :
    expand_runs (fill_runs width rows) = pixel_stream rows := by
  obtain ⟨p, ps, hps, hr⟩ := fill_runs_eq width rows hg hw hh
  rw [hr, hps, expand_runs_from]
  simp [pixelrun.colour]

theorem convert_rows_fill_runs (width : Nat) (rows : List (List rgb)) (hg : is_grid width rows)
    (hw : 1 ≤ width) (hh : 1 ≤ rows.length) (hb : 3 * width < 4294967296)
    (pad : List pixelrun) :
    (convert_rows (fill_runs width rows ++ pad) width
      (4 * (fill_runs width rows).length)).written = rows := by
  unfold convert_rows
  have ht : (fill_runs width rows ++ pad).take (4 * (fill_runs width rows).length / 4)
      = fill_runs width rows := by
    rw [Nat.mul_div_cancel_left _ (by decide : 0 < 4)]
    simp
  rw [ht, foldl_put_run_eq, expand_fill_runs width rows hg hw hh,
    foldl_put_rgb_grid width hb hw rows _ rfl (by simp) hg]
  rfl

theorem png_result_accepts (png : libpng) (w : Nat) (rows : List (List rgb))
    (h : png.accepts w rows.length) : png_result png w rows.length rows = outcome.ok rows := by
  obtain ⟨_, _, _, hrow, hend⟩ := h
  unfold png_result
  have hall : (List.range rows.length).all (fun i => png.write_row w rows.length i) = true := by
    rw [List.all_eq_true]
    intro i hi
    exact hrow i (List.mem_range.1 hi)
  rw [hall, hend]
  rfl

theorem convert_to_png_accepts (png : libpng) (buf : List pixelrun) (w size : Nat)
    (rows : List (List rgb)) (hw : 1 ≤ w) (hh : 1 ≤ rows.length)
    (hrows : (convert_rows buf w size).written = rows) (h : png.accepts w rows.length) :
    convert_to_png png buf w rows.length size = outcome.ok rows := by
  have h' := h
  obtain ⟨h1, h2, h3, _, _⟩ := h'
  unfold convert_to_png
  rw [if_neg (by simp [h1]), if_neg (by simp [h2]),
    if_neg (by simp only [h3, Bool.true_eq_false, or_false, not_or]; omega), hrows]
  exact png_result_accepts png w rows h

/-- C4.  For a grid of `height >= 1` rows of `width >= 1` pixels (the row being
`3 * width` bytes, a value of `unsigned int`), the pixel block of
`parse_png_files` stores a buffer, and the decode loop of `convert_to_png` run
on that buffer with the same width and with size 4 times the number of runs
hands to `png_write_row` exactly the rows of the grid, in order, so `height`
rows; with the height of the grid, `convert_to_png` returns `EXIT_FAILURE` only
when libpng creates no struct, and returns success with these rows whenever the
calls of libpng return.  The same holds with the stored size when 4 times the
number of runs is below 2^32. -/
theorem convert_to_png_parse_png_roundtrip (width : Nat) (rows : List (List rgb))
    (hg : is_grid width rows) (hw : 1 ≤ width) (hh : 1 ≤ rows.length)
    (hb : 3 * width < 4294967296) :
    ∃ e, parse_png_pixels width rows = some e ∧
      (convert_rows e.content width (4 * (fill_runs width rows).length)).written = rows ∧
      (convert_rows e.content width (4 * (fill_runs width rows).length)).written.length
        = rows.length ∧
      (∀ png : libpng,
        convert_to_png png e.content width rows.length (4 * (fill_runs width rows).length)
          = (if png.create_write_struct = false then outcome.failure
             else if png.create_info_struct = false then outcome.failure
             else if png.write_info width rows.length = false then outcome.abort
             else png_result png width rows.length rows)) ∧
      (∀ png : libpng, png.accepts width rows.length →
        convert_to_png png e.content width rows.length (4 * (fill_runs width rows).length)
          = outcome.ok rows) ∧
      (4 * (fill_runs width rows).length < 4294967296 →
        (convert_rows e.content width e.size).written = rows ∧
        ∀ png : libpng, png.accepts width rows.length →
          convert_to_png png e.content width rows.length e.size = outcome.ok rows) := by
  have hrows := convert_rows_fill_runs width rows hg hw hh hb
  refine ⟨_, parse_png_pixels_some width rows hw hh, hrows _, ?_, ?_, ?_, ?_⟩
  · rw [hrows]
  · intro png
    unfold convert_to_png
    rw [hrows]
    by_cases h1 : png.create_write_struct = false
    · rw [if_pos h1, if_pos h1]
    · rw [if_neg h1, if_neg h1]
      by_cases h2 : png.create_info_struct = false
      · rw [if_pos h2, if_pos h2]
      · rw [if_neg h2, if_neg h2]
        by_cases h3 : png.write_info width rows.length = false
        · rw [if_pos (Or.inr (Or.inr h3)), if_pos h3]
        · have h4 : ¬ (width = 0 ∨ rows.length = 0 ∨ png.write_info width rows.length = false) := by
            rintro (h | h | h)
            · omega
            · omega
            · exact h3 h
          rw [if_neg h4, if_neg h3]
  · intro png hacc
    exact convert_to_png_accepts png _ width _ rows hw hh (hrows _) hacc
  · intro hlt
    have hs : (((fill width rows).l + 1) * 4) % 4294967296
        = 4 * (fill_runs width rows).length := by
      rw [fill_runs_length] at hlt ⊢
      omega
    simp only [hs]
    exact ⟨hrows _, fun png hacc =>
      convert_to_png_accepts png _ width _ rows hw hh (hrows _) hacc⟩

/-- C5.  For a grid of `height >= 1` rows of `width >= 1` pixels, the pixel
block of `parse_png_files` stores a buffer in which each of the first
`size / 4` records has a count between 1 and 255. -/
theorem parse_png_run_counts (width : Nat) (rows : List (List rgb))
    (hg : is_grid width rows) (hw : 1 ≤ width) (hh : 1 ≤ rows.length) :
    ∃ e, parse_png_pixels width rows = some e ∧
      ∀ r ∈ e.content.take (e.size / 4), 1 ≤ r.count ∧ r.count ≤ 255 := by
  refine ⟨_, parse_png_pixels_some width rows hw hh, ?_⟩
  intro r hr
  simp only at hr
  have hle : (((fill width rows).l + 1) * 4) % 4294967296 / 4 ≤ (fill_runs width rows).length := by
    rw [fill_runs_length]
    omega
  rw [List.take_append_of_le_length hle] at hr
  have hmem : r ∈ fill_runs width rows := List.mem_of_mem_take hr
  obtain ⟨p, ps, _, hrun⟩ := fill_runs_eq width rows hg hw hh
  rw [hrun] at hmem
  exact runs_from_count ps _ ⟨by simp, by simp⟩ r hmem

/-- C6.  For a grid of `height >= 1` rows of `width >= 1` pixels, the number of
run records that the filling loop of `parse_png_files` produces is at most the
length of any sequence of records with counts between 1 and 255 that expands
to the row-major pixel stream of the grid. -/
theorem parse_png_runs_minimal (width : Nat) (rows : List (List rgb))
    (hg : is_grid width rows) (hw : 1 ≤ width) (hh : 1 ≤ rows.length)
    (rs : List pixelrun) (hv : ∀ r ∈ rs, 1 ≤ r.count ∧ r.count ≤ 255)
    (he : expand_runs rs = pixel_stream rows) :
    (fill_runs width rows).length ≤ rs.length := by
  obtain ⟨p, ps, hps, hrun⟩ := fill_runs_eq width rows hg hw hh
  rw [hrun]
  exact runs_from_minimal rs p ps hv (he.trans hps)

/-- Witness of C4: one row of 300 red pixels, which the encoder splits into
runs of 255 and 45. -/
theorem convert_to_png_parse_png_roundtrip_witness :
    is_grid 300 [List.replicate 300 ⟨255, 0, 0⟩]
    ∧ ∃ e, parse_png_pixels 300 [List.replicate 300 ⟨255, 0, 0⟩] = some e ∧
      (convert_rows e.content 300
        (4 * (fill_runs 300 [List.replicate 300 ⟨255, 0, 0⟩]).length)).written
        = [List.replicate 300 ⟨255, 0, 0⟩] ∧
      convert_to_png libpng_rows e.content 300 1
        (4 * (fill_runs 300 [List.replicate 300 ⟨255, 0, 0⟩]).length)
        = outcome.ok [List.replicate 300 ⟨255, 0, 0⟩] := by
  refine ⟨by decide, ?_⟩
  obtain ⟨e, h1, h2, _, _, h5, _⟩ := convert_to_png_parse_png_roundtrip 300
    [List.replicate 300 ⟨255, 0, 0⟩] (by decide) (by decide) (by decide) (by decide)
  exact ⟨e, h1, h2, h5 libpng_rows (by decide)⟩

/-- Witness of C5: a checkerboard of two rows and two columns. -/
theorem parse_png_run_counts_witness :
    is_grid 2 [[⟨255, 0, 0⟩, ⟨0, 0, 255⟩], [⟨0, 0, 255⟩, ⟨255, 0, 0⟩]]
    ∧ ∃ e, parse_png_pixels 2 [[⟨255, 0, 0⟩, ⟨0, 0, 255⟩], [⟨0, 0, 255⟩, ⟨255, 0, 0⟩]] = some e ∧
      ∀ r ∈ e.content.take (e.size / 4), 1 ≤ r.count ∧ r.count ≤ 255 :=
  ⟨by decide, parse_png_run_counts 2
    [[⟨255, 0, 0⟩, ⟨0, 0, 255⟩], [⟨0, 0, 255⟩, ⟨255, 0, 0⟩]] (by decide) (by decide) (by decide)⟩

/-- Witness of C6: a row of two red pixels and a blue one, against the
sequence of three records of count 1. -/
theorem parse_png_runs_minimal_witness :
    expand_runs [⟨1, 255, 0, 0⟩, ⟨1, 255, 0, 0⟩, ⟨1, 0, 0, 255⟩]
      = pixel_stream [[⟨255, 0, 0⟩, ⟨255, 0, 0⟩, ⟨0, 0, 255⟩]]
    ∧ (fill_runs 3 [[⟨255, 0, 0⟩, ⟨255, 0, 0⟩, ⟨0, 0, 255⟩]]).length ≤ 3 :=
  ⟨by decide, parse_png_runs_minimal 3 [[⟨255, 0, 0⟩, ⟨255, 0, 0⟩, ⟨0, 0, 255⟩]]
    (by decide) (by decide) (by decide)
    [⟨1, 255, 0, 0⟩, ⟨1, 255, 0, 0⟩, ⟨1, 0, 0, 255⟩] (by decide) (by decide)⟩

/-! ## Claims about the payloads written -/

/-- C8, evaluated where the code departs from it.  The table holds the entries
"boot" and "bootloader" with their payloads, and the only argument is
"bootloader.png".  No argument names the entry "boot" (`update_header` does
not match it), yet `write_file_imgs` compares only the `strlen("boot")` first
characters and writes the new buffer for "boot" too, in place of its original
payload. -/
theorem write_file_imgs_matches_longer_name :
    write_file_imgs
        [⟨name_boot ++ [0], 512, [3, 0, 255, 0] ++ List.replicate 508 0⟩,
         ⟨name_bootloader ++ [0], 512, [7, 0, 0, 255] ++ List.replicate 508 0⟩]
        [png_arg arg_bootloader_png 1 [[⟨255, 0, 0⟩]]]
      = some [[1, 255, 0, 0] ++ List.replicate 508 0, [1, 255, 0, 0] ++ List.replicate 508 0]
    ∧ name_matches (png_arg arg_bootloader_png 1 [[⟨255, 0, 0⟩]])
        ⟨name_boot, 3, 1, 0, 0, 1024, 4⟩ = false
    ∧ name_matches (png_arg arg_bootloader_png 1 [[⟨255, 0, 0⟩]])
        ⟨name_bootloader, 7, 1, 0, 0, 1536, 4⟩ = true := by
  decide

/-! ## Claims about the magic of the header -/

/-- When `strncmp` returns 0 on two buffers of `n` bytes of which the second
holds no NUL, the buffers are equal. -/
theorem strncmp_eq_zero (n : Nat) :
    ∀ a b : List Nat, a.length = n → b.length = n → (∀ x ∈ b, x ≠ 0) →
      strncmp a b n = 0 → a = b := by
  induction n with
  | zero =>
    intro a b ha hb _ _
    rw [List.length_eq_zero.1 ha, List.length_eq_zero.1 hb]
  | succ n ih =>
    intro a b ha hb hnz h
    cases a with
    | nil => simp at ha
    | cons x xs =>
      cases b with
      | nil => simp at hb
      | cons y ys =>
        simp only [strncmp, List.headD_cons, List.tail_cons] at h
        have hy : y ≠ 0 := hnz y (List.mem_cons_self _ _)
        split_ifs at h with h1 h2
        · have hxy : x = y := not_not.1 h1
          exact absurd (hxy ▸ h2) hy
        · have hxy : x = y := not_not.1 h1
          rw [hxy, ih xs ys (by simpa using ha) (by simpa using hb)
            (fun z hz => hnz z (List.mem_cons_of_mem _ hz)) h]

/-- A stream whose first 8 bytes are not the magic makes `read_file_header`
return `EXIT_FAILURE`, before its call of `malloc`. -/
theorem read_file_header_magic_failure (malloc : Nat → Bool) (img : List Nat)
    (h : img.take 8 ≠ IMGDATA_MAGIC) : read_file_header malloc img = outcome.failure := by
  unfold read_file_header
  by_cases h1 : img.length < 24
  · rw [if_pos h1]
  · rw [if_neg h1]
    have hmag : (parse_hdr (img.take 24)).magic = img.take 8 := by
      simp [parse_hdr, List.take_take]
    have hlen : (img.take 8).length = 8 := by
      rw [List.length_take]; omega
    have h2 : strncmp (parse_hdr (img.take 24)).magic IMGDATA_MAGIC IMGDATA_MAGIC_SIZE ≠ 0 := by
      intro h0
      rw [hmag] at h0
      exact h (strncmp_eq_zero 8 (img.take 8) IMGDATA_MAGIC hlen rfl (by decide) h0)
    simp only [h2, ne_eq, not_false_eq_true, if_true]

/-- C9.  For every byte stream whose first 8 bytes are not the literal
"IMGDATA!", `read_file_header` returns failure, whatever `malloc` does, and
`main` in extract mode creates no output file and returns. -/
theorem read_file_header_bad_magic (malloc : Nat → Bool) (png : libpng) (img : List Nat)
    (h : img.take 8 ≠ IMGDATA_MAGIC) :
    read_file_header malloc img = outcome.failure ∧
    (main_extract malloc png img).files = [] ∧
    (main_extract malloc png img).status = some EXIT_SUCCESS := by
  have hf := read_file_header_magic_failure malloc img h
  exact ⟨hf, by simp [main_extract, hf], by simp [main_extract, hf]⟩

/-- Witness of C9: a container of one entry whose magic reads "IMGDATA?". -/
theorem read_file_header_bad_magic_witness :
    ([73, 77, 71, 68, 65, 84, 65, 63, 1, 0, 0, 0, 1, 0, 0, 0, 0, 0, 0, 0, 0, 0, 0, 0]
        ++ file_bytes ⟨name_boot, 1, 1, 0, 0, 1024, 4⟩).take 8 ≠ IMGDATA_MAGIC
    ∧ read_file_header malloc_ok
        ([73, 77, 71, 68, 65, 84, 65, 63, 1, 0, 0, 0, 1, 0, 0, 0, 0, 0, 0, 0, 0, 0, 0, 0]
          ++ file_bytes ⟨name_boot, 1, 1, 0, 0, 1024, 4⟩) = outcome.failure
    ∧ (main_extract malloc_ok libpng_rows
        ([73, 77, 71, 68, 65, 84, 65, 63, 1, 0, 0, 0, 1, 0, 0, 0, 0, 0, 0, 0, 0, 0, 0, 0]
          ++ file_bytes ⟨name_boot, 1, 1, 0, 0, 1024, 4⟩)).files = [] := by
  obtain ⟨h1, h2, _⟩ := read_file_header_bad_magic malloc_ok libpng_rows
    ([73, 77, 71, 68, 65, 84, 65, 63, 1, 0, 0, 0, 1, 0, 0, 0, 0, 0, 0, 0, 0, 0, 0, 0]
      ++ file_bytes ⟨name_boot, 1, 1, 0, 0, 1024, 4⟩) (by decide)
  exact ⟨by decide, h1, h2⟩

/-! ## Claims about the alignment of offsets -/

theorem wrap_int_mod (x : Int) (h : x % 512 = 0) : wrap_int x % 512 = 0 := by
  unfold wrap_int
  omega

theorem wrap_int_shift_mod (oc d : Int) (h : oc % 512 = 0) :
    wrap_int (oc + wrap_int ((IMGDATA_FILE_BLOCK_SIZE : Int) * d)) % 512 = 0 := by
  apply wrap_int_mod
  have := wrap_int_mod ((IMGDATA_FILE_BLOCK_SIZE : Int) * d) (by simp [IMGDATA_FILE_BLOCK_SIZE])
  omega

theorem size_offchange_mod (fsize usize : Nat) (oc : Int) (h : oc % 512 = 0) :
    size_offchange fsize usize oc % 512 = 0 := by
  unfold size_offchange
  simp only
  split_ifs
  all_goals first
    | exact h
    | exact wrap_int_shift_mod oc _ h

theorem update_one_mod (st : imgdata_file × Int) (u : arg) (h : st.2 % 512 = 0) :
    (update_one st u).2 % 512 = 0 := by
  unfold update_one
  split_ifs
  · unfold apply_marks
    simp only
    split_ifs
    · exact size_offchange_mod _ _ _ h
    · exact h
  · exact h

theorem update_entry_mod (ufile : List arg) (f : imgdata_file) (oc : Int) (h : oc % 512 = 0) :
    (update_entry f oc ufile).2 % 512 = 0 := by
  unfold update_entry
  generalize hst : (f, oc) = st
  have h2 : st.2 % 512 = 0 := by rw [← hst]; exact h
  clear hst h
  induction ufile generalizing st with
  | nil => exact h2
  | cons u us ih => exact ih _ (update_one_mod st u h2)

theorem add_uint_int_mod (a : Nat) (b : Int) (ha : a % 512 = 0) (hb : b % 512 = 0) :
    add_uint_int a b % 512 = 0 := by
  unfold add_uint_int
  omega

theorem update_header_loop_mod (imgs : List imgdata_file) (ufile : List arg) (oc : Int)
    (hoc : oc % 512 = 0) (h : ∀ f ∈ imgs, f.offset % 512 = 0) :
    ∀ f ∈ update_header_loop imgs ufile oc, f.offset % 512 = 0 := by
  induction imgs generalizing oc with
  | nil => intro f hf; simp [update_header_loop] at hf
  | cons g rest ih =>
    intro f hf
    simp only [update_header_loop, List.mem_cons] at hf
    rcases hf with hf | hf
    · rw [hf]
      unfold update_entry
      rw [foldl_update_one_offset]
      exact add_uint_int_mod _ _ (h g (List.mem_cons_self _ _)) hoc
    · exact ih _ (update_entry_mod ufile _ oc hoc)
        (fun x hx => h x (List.mem_cons_of_mem _ hx)) f hf

/-- C11.  For every table in which every offset is a multiple of 512 and for
every argument list, whatever its marks and sizes and also when the 32-bit
arithmetic wraps, every offset of the table that `update_header` returns is a
multiple of 512. -/
theorem update_header_offsets_aligned (imgs : List imgdata_file) (ufile : List arg)
    (h : ∀ f ∈ imgs, f.offset % IMGDATA_FILE_BLOCK_SIZE = 0) :
    ∀ f ∈ update_header imgs ufile, f.offset % IMGDATA_FILE_BLOCK_SIZE = 0 :=
  update_header_loop_mod imgs ufile 0 rfl h

/-- Witness of C11: the second offset wraps past 2^32 and stays a multiple of
512. -/
theorem update_header_offsets_aligned_witness :
    (∀ f ∈ [(⟨name_boot, 5, 5, 0, 0, 1024, 100⟩ : imgdata_file),
        ⟨name_bootloader, 1, 1, 0, 0, 4294966784, 600⟩], f.offset % IMGDATA_FILE_BLOCK_SIZE = 0)
    ∧ ∀ f ∈ update_header [⟨name_boot, 5, 5, 0, 0, 1024, 100⟩,
        ⟨name_bootloader, 1, 1, 0, 0, 4294966784, 600⟩]
        [⟨arg_boot_png, 0, 0, 3, 3, 1300, 1536, 28, []⟩], f.offset % IMGDATA_FILE_BLOCK_SIZE = 0 :=
  ⟨by decide, update_header_offsets_aligned _ _ (by decide)⟩

/-! ## Claims about arguments that match no entry -/

theorem update_one_unmatched (st : imgdata_file × Int) (u : arg)
    (h : name_matches u st.1 = false) : update_one st u = st := by
  unfold update_one
  rw [h]
  rfl

theorem update_entry_unmatched (f : imgdata_file) (oc : Int) (us1 us2 : List arg) (u : arg)
    (h : name_matches u f = false) :
    update_entry f oc (us1 ++ u :: us2) = update_entry f oc (us1 ++ us2) := by
  unfold update_entry
  rw [List.foldl_append, List.foldl_append, List.foldl_cons]
  rw [update_one_unmatched _ u]
  rw [name_matches_congr u f _ (foldl_update_one_name us1 (f, oc))]
  exact h

theorem update_entry_none_matched (ufile : List arg) (f : imgdata_file) (oc : Int)
    (h : ∀ u ∈ ufile, name_matches u f = false) : update_entry f oc ufile = (f, oc) := by
  unfold update_entry
  induction ufile with
  | nil => rfl
  | cons u us ih =>
    rw [List.foldl_cons, update_one_unmatched _ u (h u (List.mem_cons_self _ _))]
    exact ih (fun v hv => h v (List.mem_cons_of_mem _ hv))

theorem update_header_loop_unmatched (imgs : List imgdata_file) (us1 us2 : List arg) (u : arg)
    (oc : Int) (h : ∀ f ∈ imgs, name_matches u f = false) :
    update_header_loop imgs (us1 ++ u :: us2) oc = update_header_loop imgs (us1 ++ us2) oc := by
  induction imgs generalizing oc with
  | nil => rfl
  | cons f rest ih =>
    have hf : name_matches u { f with offset := add_uint_int f.offset oc } = false :=
      (name_matches_congr u f _ rfl).trans (h f (List.mem_cons_self _ _))
    simp only [update_header_loop]
    rw [update_entry_unmatched _ oc us1 us2 u hf]
    rw [ih _ (fun g hg => h g (List.mem_cons_of_mem _ hg))]

theorem update_header_loop_none_matched (imgs : List imgdata_file) (ufile : List arg)
    (h : ∀ u ∈ ufile, ∀ f ∈ imgs, name_matches u f = false)
    (hoff : ∀ f ∈ imgs, f.offset < 4294967296) :
    update_header_loop imgs ufile 0 = imgs := by
  induction imgs with
  | nil => rfl
  | cons f rest ih =>
    have hf : ∀ u ∈ ufile, name_matches u { f with offset := add_uint_int f.offset 0 } = false :=
      fun u hu => (name_matches_congr u f _ rfl).trans (h u hu f (List.mem_cons_self _ _))
    simp only [update_header_loop]
    rw [update_entry_none_matched ufile _ 0 hf]
    simp only
    rw [ih (fun u hu g hg => h u hu g (List.mem_cons_of_mem _ hg))
      (fun g hg => hoff g (List.mem_cons_of_mem _ hg))]
    rw [add_uint_int_zero _ (hoff f (List.mem_cons_self _ _))]

/-- C12.  For every table and argument list, an argument whose name matches no
entry has no effect: `update_header` returns the same table with it and
without it, whatever its marks and values; and when no argument matches any
entry, `update_header` returns the table as it was, every field of every entry
included (the offsets being values of `unsigned int`). -/
theorem update_header_unmatched (imgs : List imgdata_file) (us1 us2 : List arg) (u : arg)
    (h : ∀ f ∈ imgs, name_matches u f = false) :
    update_header imgs (us1 ++ u :: us2) = update_header imgs (us1 ++ us2) ∧
    ((∀ v ∈ us1 ++ us2, ∀ f ∈ imgs, name_matches v f = false) →
      (∀ f ∈ imgs, f.offset < 4294967296) →
      update_header imgs (us1 ++ u :: us2) = imgs) := by
  refine ⟨update_header_loop_unmatched imgs us1 us2 u 0 h, ?_⟩
  intro hall hoff
  unfold update_header
  rw [update_header_loop_unmatched imgs us1 us2 u 0 h]
  exact update_header_loop_none_matched imgs _ hall hoff

/-- Witness of C12: the argument "bootloader.png", size-marked, on a table
that holds only "boot", next to an argument "boot.png" that is applied. -/
theorem update_header_unmatched_witness :
    (∀ f ∈ [(⟨name_boot, 5, 5, 0, 0, 1024, 100⟩ : imgdata_file)],
      name_matches ⟨arg_bootloader_png, 9, 9, 3, 3, 1300, 1536, 31, []⟩ f = false)
    ∧ update_header [⟨name_boot, 5, 5, 0, 0, 1024, 100⟩]
        ([⟨arg_boot_png, 7, 0, 0, 0, 0, 0, 1, []⟩]
          ++ ⟨arg_bootloader_png, 9, 9, 3, 3, 1300, 1536, 31, []⟩ :: [])
      = update_header [⟨name_boot, 5, 5, 0, 0, 1024, 100⟩]
        ([⟨arg_boot_png, 7, 0, 0, 0, 0, 0, 1, []⟩] ++ []) :=
  ⟨by decide, (update_header_unmatched _ _ _ _ (by decide)).1⟩

/-! ## Claims about the comparison of names -/

theorem strrchr_eq_last_dot_aux (t : List Nat) :
    (if 46 ∈ t then some (t.length - 1 - t.reverse.indexOf 46) else none) = last_dot t := by
  induction t with
  | nil => rfl
  | cons c cs ih =>
    rw [last_dot, ← ih]
    by_cases hm : 46 ∈ cs
    · have hm' : (46 : Nat) ∈ cs.reverse := List.mem_reverse.2 hm
      have hlt : cs.reverse.indexOf 46 < cs.length := by
        have := List.indexOf_lt_length.2 hm'
        simpa using this
      simp only [hm, if_true, List.mem_cons, or_true, List.reverse_cons, List.length_cons]
      rw [List.indexOf_append_of_mem hm']
      congr 1
      omega
    · have hm' : (46 : Nat) ∉ cs.reverse := fun h => hm (List.mem_reverse.1 h)
      simp only [hm, if_false, List.mem_cons, or_false, List.reverse_cons, List.length_cons]
      by_cases hc : c = 46
      · subst hc
        simp only [if_true]
        rw [List.indexOf_append_of_not_mem hm']
        simp
      · have hc' : ¬ 46 = c := fun h => hc h.symm
        simp only [hc, hc', if_false]

theorem strrchr_eq_last_dot (s : List Nat) : strrchr s 46 = last_dot (cstr s) := by
  unfold strrchr
  exact strrchr_eq_last_dot_aux (cstr s)

theorem request_name_eq (name : List Nat) :
    request_name name = (cstr name).take (name_check name) := by
  unfold request_name name_check
  rw [strrchr_eq_last_dot]
  cases last_dot (cstr name) with
  | none => rfl
  | some d =>
    simp only [IMGDATA_FILE_NAME_SIZE]
    split_ifs <;> rfl

theorem cstr_nil : cstr [] = [] := rfl

theorem cstr_cons_zero (s : List Nat) : cstr (0 :: s) = [] := by
  simp [cstr]

theorem cstr_cons_ne (c : Nat) (s : List Nat) (h : c ≠ 0) : cstr (c :: s) = c :: cstr s := by
  simp [cstr, h]

/-- The function `strncmp` returns 0 exactly when the strings held by the first
`n` bytes of the two buffers are equal. -/
theorem strncmp_eq_zero_iff (n : Nat) :
    ∀ a b : List Nat, strncmp a b n = 0 ↔ cstr (a.take n) = cstr (b.take n) := by
  induction n with
  | zero => intro a b; simp [strncmp]
  | succ n ih =>
    intro a b
    rw [strncmp]
    cases a with
    | nil =>
      cases b with
      | nil => simp
      | cons y ys =>
        by_cases hy : y = 0
        · subst hy; simp [cstr_cons_zero, cstr_nil]
        · have h0 : ¬ 0 = y := fun h => hy h.symm
          simp [cstr_cons_ne y _ hy, cstr_nil, h0]
    | cons x xs =>
      cases b with
      | nil =>
        by_cases hx : x = 0
        · subst hx; simp [cstr_cons_zero, cstr_nil]
        · simp [cstr_cons_ne x _ hx, cstr_nil, hx]
      | cons y ys =>
        simp only [List.headD_cons, List.tail_cons, List.take_succ_cons]
        by_cases hxy : x = y
        · subst hxy
          by_cases hx : x = 0
          · subst hx; simp [cstr_cons_zero]
          · simp [cstr_cons_ne x _ hx, hx, ih xs ys]
        · simp only [ne_eq, hxy, not_false_eq_true, if_true, one_ne_zero, false_iff]
          by_cases hx : x = 0
          · subst hx
            have hy : y ≠ 0 := fun h => hxy h.symm
            simp [cstr_cons_zero, cstr_cons_ne y _ hy]
          · by_cases hy : y = 0
            · subst hy; simp [cstr_cons_zero, cstr_cons_ne x _ hx]
            · simp [cstr_cons_ne x _ hx, cstr_cons_ne y _ hy, hxy]

theorem cstr_no_zero (s : List Nat) : ∀ x ∈ cstr s, x ≠ 0 := by
  intro x hx
  have := List.mem_takeWhile_imp hx
  simpa using this

theorem cstr_append_zeros (t : List Nat) (z : List Nat) (ht : ∀ x ∈ t, x ≠ 0)
    (hz : ∀ x ∈ z, x = 0) : cstr (t ++ z) = t := by
  induction t with
  | nil =>
    cases z with
    | nil => rfl
    | cons y ys =>
      have : y = 0 := hz y (List.mem_cons_self _ _)
      subst this
      exact cstr_cons_zero ys
  | cons x xs ih =>
    rw [List.cons_append, cstr_cons_ne x _ (ht x (List.mem_cons_self _ _)),
      ih (fun y hy => ht y (List.mem_cons_of_mem _ hy))]

/-- The string held by the first 16 bytes of `uname` is the name as cut. -/
theorem cstr_uname (name : List Nat) :
    cstr ((uname name).take 16) = (cstr name).take (name_check name) := by
  have hck : name_check name ≤ 16 := by
    unfold name_check
    cases strrchr name 46 with
    | none => simp [IMGDATA_FILE_NAME_SIZE]
    | some d => simp only [IMGDATA_FILE_NAME_SIZE]; split_ifs <;> omega
  unfold uname strncpy
  rw [List.append_assoc, List.take_append_eq_append_take]
  have hlen : ((cstr name).take (name_check name)).length ≤ 16 := by
    rw [List.length_take]; omega
  rw [List.take_of_length_le hlen]
  apply cstr_append_zeros
  · intro x hx
    exact cstr_no_zero name x (List.mem_of_mem_take hx)
  · intro x hx
    have := List.mem_of_mem_take hx
    simp only [List.mem_append, List.mem_replicate, List.mem_singleton] at this
    rcases this with h | h
    · exact h.2
    · exact h

theorem name_matches_iff (u : arg) (f : imgdata_file) :
    name_matches u f = true ↔ request_name u.name = field_name f.name := by
  unfold name_matches
  rw [beq_iff_eq, IMGDATA_FILE_NAME_SIZE, strncmp_eq_zero_iff, cstr_uname, request_name_eq]
  rfl

/-- C13.  In `update_header` the argument `u` is applied to an entry exactly
when the name of `u`, cut at its last '.' if that dot lies within the first 16
characters and cut to at most 16 characters otherwise, equals the 16-byte name
field of the entry read up to its first NUL or to 16 bytes: the test of the
inner loop holds exactly then, the body of the inner loop applies the marks
then and leaves the entry and `offchange` alone otherwise, and the test gives
the same result on any entry whose first 16 name bytes are the same. -/
theorem update_header_name_comparison (u : arg) (f : imgdata_file) (oc : Int) :
    (name_matches u f = true ↔ request_name u.name = field_name f.name) ∧
    update_one (f, oc) u
      = (if request_name u.name = field_name f.name then apply_marks u f oc else (f, oc)) ∧
    (∀ g : imgdata_file, g.name.take 16 = f.name.take 16 →
      name_matches u g = name_matches u f) := by
  refine ⟨name_matches_iff u f, ?_, ?_⟩
  · unfold update_one
    by_cases h : name_matches u f = true
    · rw [if_pos ((name_matches_iff u f).1 h)]
      simp only [h, if_true]
    · rw [if_neg (fun h2 => h ((name_matches_iff u f).2 h2))]
      simp only [h]
      rfl
  · intro g hg
    have h1 := name_matches_iff u g
    have h2 := name_matches_iff u f
    have hfn : field_name g.name = field_name f.name := by
      unfold field_name
      rw [hg]
    rw [hfn] at h1
    cases hgm : name_matches u g <;> cases hfm : name_matches u f <;> simp_all

/-! ## Claims about the sizes stored by the encoder -/

theorem fill_pixel_l_le (st : fill_state) (p : rgb) : st.l ≤ (fill_pixel st p).l := by
  unfold fill_pixel fill_state.l
  split_ifs <;> simp

theorem foldl_fill_pixel_l_le (ps : List rgb) (st : fill_state) :
    st.l ≤ (ps.foldl fill_pixel st).l := by
  induction ps generalizing st with
  | nil => exact Nat.le_refl _
  | cons p ps ih => exact Nat.le_trans (fill_pixel_l_le st p) (ih _)

/-- The number of blocks allocated is the number of blocks that the records up
to `content[l]` need, while the sizes stay below 2^32. -/
theorem fill_pixel_blockcount (st : fill_state) (p : rgb)
    (hinv : st.blockcount = st.l * 4 / 512 + 1)
    (hb : (fill_pixel st p).l * 4 + 512 < 4294967296) :
    (fill_pixel st p).blockcount = (fill_pixel st p).l * 4 / 512 + 1 := by
  unfold fill_pixel at hb ⊢
  split_ifs at hb ⊢ with hc h2
  · exact hinv
  · simp only [fill_state.l, List.length_append, List.length_singleton] at hb h2 ⊢
    simp only [fill_state.l] at hinv
    rw [hinv] at h2 ⊢
    rw [Nat.mod_eq_of_lt (by simp only [IMGDATA_FILE_BLOCK_SIZE]; omega),
      Nat.mod_eq_of_lt (by omega)] at h2
    simp only [IMGDATA_FILE_BLOCK_SIZE] at h2
    omega
  · simp only [fill_state.l, List.length_append, List.length_singleton] at hb h2 ⊢
    simp only [fill_state.l] at hinv
    rw [hinv] at h2 ⊢
    rw [Nat.mod_eq_of_lt (by simp only [IMGDATA_FILE_BLOCK_SIZE]; omega),
      Nat.mod_eq_of_lt (by omega)] at h2
    simp only [IMGDATA_FILE_BLOCK_SIZE] at h2
    omega

theorem foldl_fill_pixel_blockcount (ps : List rgb) (st : fill_state)
    (hinv : st.blockcount = st.l * 4 / 512 + 1)
    (hb : (ps.foldl fill_pixel st).l * 4 + 512 < 4294967296) :
    (ps.foldl fill_pixel st).blockcount = (ps.foldl fill_pixel st).l * 4 / 512 + 1 := by
  induction ps generalizing st with
  | nil => exact hinv
  | cons p ps ih =>
    rw [List.foldl_cons] at hb ⊢
    have hle := foldl_fill_pixel_l_le ps (fill_pixel st p)
    exact ih _ (fill_pixel_blockcount st p hinv (by omega)) hb

theorem fill_blockcount (width : Nat) (rows : List (List rgb)) (hg : is_grid width rows)
    (hb : (fill width rows).l * 4 + 512 < 4294967296) :
    (fill width rows).blockcount = (fill width rows).l * 4 / 512 + 1 := by
  unfold fill at hb ⊢
  rw [foldl_fill_row_eq width rows _ hg] at hb ⊢
  exact foldl_fill_pixel_blockcount _ _ (by simp [fill_init, fill_state.l]) hb

theorem aligned_bound (l : Nat) (h : aligned (4 * (l + 1)) < 4294967296) :
    l * 4 + 512 < 4294967296 := by
  unfold aligned ceil_blocks at h
  simp only [IMGDATA_FILE_BLOCK_SIZE] at h
  omega

theorem aligned_runs (l : Nat) : (l * 4 / 512 + 1) * 512 = aligned (4 * (l + 1)) := by
  unfold aligned ceil_blocks
  simp only [IMGDATA_FILE_BLOCK_SIZE]
  omega

/-- C14.  For a grid of `height >= 1` rows of `width >= 1` pixels whose
block-aligned encoded size is a value of `unsigned int`, the pixel block of
`parse_png_files` stores the size 4 times the number of runs and the bsize
`ceil(size / 512) * 512`, the least multiple of 512 that is at least the
size; the buffer holds bsize bytes, the run records first, and every record
from byte `size` on is zero.  For the all-red grid of 2 by 2 pixels the buffer
is the record (4, 255, 0, 0) followed by zeros up to 512 bytes, with size 4. -/
theorem parse_png_sizes (width : Nat) (rows : List (List rgb)) (hg : is_grid width rows)
    (hw : 1 ≤ width) (hh : 1 ≤ rows.length)
    (hb : aligned (4 * (fill_runs width rows).length) < 4294967296) :
    (∃ e, parse_png_pixels width rows = some e ∧
      e.size = 4 * (fill_runs width rows).length ∧
      e.bsize = ceil_blocks e.size * 512 ∧
      e.size ≤ e.bsize ∧ e.bsize % 512 = 0 ∧ e.bsize < e.size + 512 ∧
      e.content.length * 4 = e.bsize ∧
      e.content.take (e.size / 4) = fill_runs width rows ∧
      ∀ r ∈ e.content.drop (e.size / 4), r = ⟨0, 0, 0, 0⟩) ∧
    parse_png_pixels 2 [[⟨255, 0, 0⟩, ⟨255, 0, 0⟩], [⟨255, 0, 0⟩, ⟨255, 0, 0⟩]]
      = some { size := 4, bsize := 512,
               content := ⟨4, 255, 0, 0⟩ :: List.replicate 127 ⟨0, 0, 0, 0⟩ } := by
  refine ⟨⟨_, parse_png_pixels_some width rows hw hh, ?_⟩, by decide⟩
  rw [fill_runs_length] at hb
  have hl := aligned_bound _ hb
  have hbc := fill_blockcount width rows hg hl
  have hal := aligned_runs (fill width rows).l
  have hsize : (((fill width rows).l + 1) * 4) % 4294967296 = 4 * ((fill width rows).l + 1) := by
    omega
  have hbsize : ((fill width rows).blockcount * IMGDATA_FILE_BLOCK_SIZE) % 4294967296
      = aligned (4 * ((fill width rows).l + 1)) := by
    rw [hbc, IMGDATA_FILE_BLOCK_SIZE, hal]
    exact Nat.mod_eq_of_lt hb
  simp only [hsize, hbsize, fill_runs_length]
  have hdef : aligned (4 * ((fill width rows).l + 1))
      = ceil_blocks (4 * ((fill width rows).l + 1)) * 512 := rfl
  have hlen : (fill_runs width rows).length = (fill width rows).l + 1 := fill_runs_length _ _
  generalize (fill width rows).l = l at *
  generalize fill_runs width rows = runs at *
  have hceil : ceil_blocks (4 * (l + 1)) * 512 = (l * 4 / 512 + 1) * 512 := by
    rw [← hdef, hal]
  have hdiv : 4 * (l + 1) / 4 = l + 1 := by omega
  refine ⟨trivial, hdef, ?_, ?_, ?_, ?_, ?_, ?_⟩
  · omega
  · omega
  · omega
  · simp only [List.length_append, List.length_replicate, hlen]
    omega
  · rw [hdiv, ← hlen]
    simp
  · intro r hr
    rw [hdiv, ← hlen] at hr
    simp only [List.drop_left, List.mem_replicate] at hr
    exact hr.2

/-- Witness of C14: a checkerboard of two rows and two columns. -/
theorem parse_png_sizes_witness :
    ∃ e, parse_png_pixels 2 [[⟨255, 0, 0⟩, ⟨0, 0, 255⟩], [⟨0, 0, 255⟩, ⟨255, 0, 0⟩]] = some e ∧
      e.size = 4 * (fill_runs 2 [[⟨255, 0, 0⟩, ⟨0, 0, 255⟩], [⟨0, 0, 255⟩, ⟨255, 0, 0⟩]]).length ∧
      e.bsize = ceil_blocks e.size * 512 := by
  obtain ⟨⟨e, h1, h2, h3, _⟩, _⟩ := parse_png_sizes 2
    [[⟨255, 0, 0⟩, ⟨0, 0, 255⟩], [⟨0, 0, 255⟩, ⟨255, 0, 0⟩]] (by decide) (by decide)
    (by decide) (by decide)
  exact ⟨e, h1, h2, h3⟩

/-! ## Claims about what the decoder accepts -/

theorem expand_runs_length (rs : List pixelrun) :
    (expand_runs rs).length = run_count_sum rs := by
  induction rs with
  | nil => rfl
  | cons r rs ih =>
    simp only [expand_runs, List.flatMap_cons, List.length_append, List.length_replicate,
      run_count_sum, List.map_cons, List.sum_cons] at ih ⊢
    rw [ih]

/-- The number of rows written while a pixel stream is stored, from a state in
which `m` pixels of the current row are stored. -/
theorem foldl_put_rgb_count (w : Nat) (hw : 3 * w < 4294967296) (ps : List rgb) :
    ∀ (s : png_state) (m : Nat), s.j = 3 * m → m < w →
      (ps.foldl (put_rgb w) s).written.length = s.written.length + (m + ps.length) / w ∧
      (ps.foldl (put_rgb w) s).j = 3 * ((m + ps.length) % w) := by
  induction ps with
  | nil =>
    intro s m hj hm
    simp only [List.foldl_nil, List.length_nil, Nat.add_zero]
    rw [Nat.div_eq_of_lt hm, Nat.mod_eq_of_lt hm]
    exact ⟨rfl, hj⟩
  | cons p ps ih =>
    intro s m hj hm
    rw [List.foldl_cons]
    by_cases hfull : m + 1 = w
    · have hc : (s.j + 3) % 4294967296 = (w * 3) % 4294967296 := by
        rw [Nat.mod_eq_of_lt (by omega), Nat.mod_eq_of_lt (by omega)]; omega
      have hstep : put_rgb w s p = (⟨s.row.set (s.j / 3) p, 0, s.written ++ [s.row.set (s.j / 3) p]⟩ : png_state) := by
        simp only [put_rgb, hc, if_true]
      rw [hstep]
      obtain ⟨h1, h2⟩ := ih (⟨s.row.set (s.j / 3) p, 0, s.written ++ [s.row.set (s.j / 3) p]⟩ : png_state) 0 rfl (by omega)
      rw [h1, h2]
      have e1 : m + (p :: ps).length = w + ps.length := by
        simp only [List.length_cons]; omega
      rw [e1, Nat.add_div_left _ (by omega : 0 < w), Nat.add_mod_left]
      simp only [List.length_append, List.length_singleton, Nat.zero_add]
      exact ⟨by omega, trivial⟩
    · have hc : ¬ (s.j + 3) % 4294967296 = (w * 3) % 4294967296 := by
        rw [Nat.mod_eq_of_lt (by omega), Nat.mod_eq_of_lt (by omega)]; omega
      have hstep : put_rgb w s p = (⟨s.row.set (s.j / 3) p, s.j + 3, s.written⟩ : png_state) := by
        simp only [put_rgb, hc, if_false]
      rw [hstep]
      obtain ⟨h1, h2⟩ := ih (⟨s.row.set (s.j / 3) p, s.j + 3, s.written⟩ : png_state) (m + 1) (by simp only; omega) (by omega)
      rw [h1, h2]
      have e1 : m + (p :: ps).length = m + 1 + ps.length := by
        simp only [List.length_cons]; omega
      rw [e1]
      exact ⟨rfl, rfl⟩

theorem png_result_ne_failure (png : libpng) (w h : Nat) (rows : List (List rgb)) :
    png_result png w h rows ≠ outcome.failure := by
  unfold png_result
  split_ifs <;> simp

theorem png_result_ok (png : libpng) (w h : Nat) (rows out : List (List rgb))
    (h1 : png_result png w h rows = outcome.ok out) : out = rows := by
  unfold png_result at h1
  split_ifs at h1
  · simp only [outcome.ok.injEq] at h1
    exact h1.symm

/-- The function `convert_to_png` returns `EXIT_FAILURE` exactly when libpng
creates no write struct or no info struct. -/
theorem convert_to_png_failure_iff (png : libpng) (buf : List pixelrun)
    (imgwidth imgheight size : Nat) :
    convert_to_png png buf imgwidth imgheight size = outcome.failure ↔
      (png.create_write_struct = false ∨ png.create_info_struct = false) := by
  unfold convert_to_png
  by_cases h1 : png.create_write_struct = false
  · simp [h1]
  · by_cases h2 : png.create_info_struct = false
    · simp [h2]
    · rw [if_neg h1, if_neg h2]
      constructor
      · intro h
        split_ifs at h
        exact absurd h (png_result_ne_failure _ _ _ _)
      · rintro (h | h)
        · exact absurd h h1
        · exact absurd h h2

theorem convert_to_png_ok (png : libpng) (buf : List pixelrun) (imgwidth imgheight size : Nat)
    (rows : List (List rgb))
    (h : convert_to_png png buf imgwidth imgheight size = outcome.ok rows) :
    rows = (convert_rows buf imgwidth size).written := by
  unfold convert_to_png at h
  split_ifs at h
  exact png_result_ok _ _ _ _ _ h

theorem convert_rows_length (buf : List pixelrun) (imgwidth size : Nat)
    (hw : 1 ≤ imgwidth) (hb : 3 * imgwidth < 4294967296) :
    (convert_rows buf imgwidth size).written.length
      = run_count_sum (buf.take (size / 4)) / imgwidth := by
  simp only [convert_rows]
  rw [foldl_put_run_eq]
  obtain ⟨h1, _⟩ := foldl_put_rgb_count imgwidth hb (expand_runs (buf.take (size / 4)))
    { row := List.replicate imgwidth ⟨0, 0, 0⟩, j := 0, written := [] } 0 rfl (by omega)
  rw [h1, expand_runs_length]
  simp

/-- C15, as the code has it.  `convert_to_png` checks neither the sum of the
run counts nor the size.  For every payload, every width of at least 1 (the
row being `3 * width` bytes, a value of `unsigned int`), every height and
every size: it returns `EXIT_FAILURE` exactly when libpng creates no write or
info struct, whatever the payload; its loop hands to `png_write_row` as many
rows as `width` goes into the sum of the counts of the first `size / 4`
records, rounded down; once the structs exist the process is aborted when
libpng raises an error (on a height of 0, on the header, on a row or in
`png_write_end`), and the function returns success with these rows otherwise. -/
theorem convert_to_png_rows_written (png : libpng) (buf : List pixelrun)
    (imgwidth imgheight size : Nat)
    (hw : 1 ≤ imgwidth) (hb : 3 * imgwidth < 4294967296) :
    (convert_to_png png buf imgwidth imgheight size = outcome.failure ↔
      (png.create_write_struct = false ∨ png.create_info_struct = false)) ∧
    (convert_rows buf imgwidth size).written.length
      = run_count_sum (buf.take (size / 4)) / imgwidth ∧
    (png.create_write_struct = true → png.create_info_struct = true →
      convert_to_png png buf imgwidth imgheight size
        = (if imgheight = 0 ∨ png.write_info imgwidth imgheight = false then outcome.abort
           else png_result png imgwidth imgheight (convert_rows buf imgwidth size).written)) ∧
    (∀ rows, convert_to_png png buf imgwidth imgheight size = outcome.ok rows →
      rows = (convert_rows buf imgwidth size).written ∧
      rows.length = run_count_sum (buf.take (size / 4)) / imgwidth) := by
  have hlen := convert_rows_length buf imgwidth size hw hb
  refine ⟨convert_to_png_failure_iff png buf imgwidth imgheight size, hlen, ?_, ?_⟩
  · intro h1 h2
    unfold convert_to_png
    rw [if_neg (by simp [h1]), if_neg (by simp [h2])]
    by_cases h3 : imgheight = 0 ∨ png.write_info imgwidth imgheight = false
    · rw [if_pos (Or.inr h3), if_pos h3]
    · have h4 : ¬ (imgwidth = 0 ∨ imgheight = 0 ∨ png.write_info imgwidth imgheight = false) := by
        rintro (h | h)
        · omega
        · exact h3 h
      rw [if_neg h4, if_neg h3]
  · intro rows hr
    have := convert_to_png_ok png buf imgwidth imgheight size rows hr
    exact ⟨this, by rw [this, hlen]⟩

/-- Witness of C15 as the code has it: three pixels for a width of 2 and a
height of 1 give one row, and libpng accepts it. -/
theorem convert_to_png_rows_written_witness :
    convert_to_png libpng_rows [⟨3, 255, 0, 0⟩] 2 1 4
      = outcome.ok [[⟨255, 0, 0⟩, ⟨255, 0, 0⟩]] ∧
    (convert_rows [⟨3, 255, 0, 0⟩] 2 4).written.length
      = run_count_sum ([(⟨3, 255, 0, 0⟩ : pixelrun)].take (4 / 4)) / 2 :=
  ⟨by decide,
    (convert_to_png_rows_written libpng_rows [⟨3, 255, 0, 0⟩] 2 1 4 (by decide) (by decide)).2.1⟩

/-- C15 fails on the code.  For an image of width 1 and height 1, a payload of
two runs of count 1 has a count sum of 2, not 1, and a size of 5 is not a
whole number of records: on both `convert_to_png` returns success, with two
rows and with one row, libpng accepting the rows. -/
theorem convert_to_png_accepts_malformed :
    run_count_sum ([(⟨1, 255, 0, 0⟩ : pixelrun), ⟨1, 0, 0, 255⟩].take (8 / 4)) ≠ 1 * 1
    ∧ convert_to_png libpng_rows [⟨1, 255, 0, 0⟩, ⟨1, 0, 0, 255⟩] 1 1 8
      = outcome.ok [[⟨255, 0, 0⟩], [⟨0, 0, 255⟩]]
    ∧ 5 % 4 ≠ 0
    ∧ convert_to_png libpng_rows [⟨1, 255, 0, 0⟩, ⟨1, 0, 0, 255⟩] 1 1 5
      = outcome.ok [[⟨255, 0, 0⟩]]
    ∧ (outcome.ok [[⟨255, 0, 0⟩]] : outcome (List (List rgb))) ≠ outcome.failure := by
  decide

theorem foldl_put_run_filter (imgwidth : Nat) (rs : List pixelrun) (s : png_state) :
    (rs.filter (fun r => r.count != 0)).foldl (fun s r => put_run imgwidth r r.count s) s
      = rs.foldl (fun s r => put_run imgwidth r r.count s) s := by
  induction rs generalizing s with
  | nil => rfl
  | cons r rs ih =>
    by_cases h : r.count = 0
    · have hf : (r :: rs).filter (fun r => r.count != 0) = rs.filter (fun r => r.count != 0) := by
        simp [List.filter_cons, h]
      rw [hf, List.foldl_cons, h, ih]
      rfl
    · have hf : (r :: rs).filter (fun r => r.count != 0)
          = r :: rs.filter (fun r => r.count != 0) := by
        simp [List.filter_cons, h]
      rw [hf, List.foldl_cons, List.foldl_cons, ih]

theorem convert_rows_filter (buf : List pixelrun) (imgwidth size : Nat) :
    convert_rows ((buf.take (size / 4)).filter (fun r => r.count != 0)) imgwidth
        (4 * ((buf.take (size / 4)).filter (fun r => r.count != 0)).length)
      = convert_rows buf imgwidth size := by
  simp only [convert_rows]
  rw [Nat.mul_div_cancel_left _ (by decide : 0 < 4), List.take_length, foldl_put_run_filter]

/-- C16, as the code has it.  `convert_to_png` does not reject a record whose
count is 0: the record adds no pixel.  For every payload, width, height and
size, and whatever libpng does, the function ends as it ends on the payload
without its records of count 0 (the same rows handed to `png_write_row`, the
same return or abort), and it returns `EXIT_FAILURE` exactly when libpng
creates no write or info struct. -/
theorem convert_to_png_skips_zero_count (png : libpng) (buf : List pixelrun)
    (imgwidth imgheight size : Nat) :
    convert_to_png png buf imgwidth imgheight size
      = convert_to_png png ((buf.take (size / 4)).filter (fun r => r.count != 0)) imgwidth
          imgheight (4 * ((buf.take (size / 4)).filter (fun r => r.count != 0)).length) ∧
    (convert_rows buf imgwidth size).written
      = (convert_rows ((buf.take (size / 4)).filter (fun r => r.count != 0)) imgwidth
          (4 * ((buf.take (size / 4)).filter (fun r => r.count != 0)).length)).written ∧
    (convert_to_png png buf imgwidth imgheight size = outcome.failure ↔
      (png.create_write_struct = false ∨ png.create_info_struct = false)) := by
  refine ⟨?_, ?_, convert_to_png_failure_iff png buf imgwidth imgheight size⟩
  · simp only [convert_to_png, convert_rows_filter]
  · rw [convert_rows_filter]

/-- C16 fails on the code.  For an image of width 1 and height 1, the payload
of two records, the first with count 0, lies within the size 8;
`convert_to_png` returns success and writes the one-pixel row of the second
record, libpng accepting the row. -/
theorem convert_to_png_accepts_zero_count :
    (⟨0, 9, 9, 9⟩ : pixelrun) ∈ [(⟨0, 9, 9, 9⟩ : pixelrun), ⟨1, 255, 0, 0⟩].take (8 / 4)
    ∧ (⟨0, 9, 9, 9⟩ : pixelrun).count = 0
    ∧ convert_to_png libpng_rows [⟨0, 9, 9, 9⟩, ⟨1, 255, 0, 0⟩] 1 1 8
      = outcome.ok [[⟨255, 0, 0⟩]]
    ∧ (outcome.ok [[⟨255, 0, 0⟩]] : outcome (List (List rgb))) ≠ outcome.failure := by
  decide

/-- With the stand-in `libpng_rows`, which raises an error in `png_write_end`
when fewer rows than the height were written: `convert_to_png` aborts the
process on a payload without a complete row, on one row for a height of 2 and
on a width of 0, and returns on one and on two rows for a height of 1. -/
theorem convert_to_png_libpng_rows :
    convert_to_png libpng_rows [⟨1, 255, 0, 0⟩] 2 1 4 = outcome.abort
    ∧ convert_to_png libpng_rows [⟨3, 255, 0, 0⟩] 2 2 4 = outcome.abort
    ∧ convert_to_png libpng_rows [⟨1, 255, 0, 0⟩] 0 1 4 = outcome.abort
    ∧ convert_to_png libpng_rows [⟨0, 255, 0, 0⟩] 1 1 4 = outcome.abort
    ∧ convert_to_png libpng_rows [⟨1, 255, 0, 0⟩] 1 1 4 = outcome.ok [[⟨255, 0, 0⟩]]
    ∧ convert_to_png libpng_rows [⟨2, 255, 0, 0⟩] 1 1 4
      = outcome.ok [[⟨255, 0, 0⟩], [⟨255, 0, 0⟩]] := by
  decide

/-! ## Claims about the payload length read -/

theorem read_size_eq_aligned (s : Nat) (h1 : 1 ≤ s) (h2 : s ≤ 4294967296 - 512) :
    read_size s = aligned s := by
  unfold read_size aligned ceil_blocks
  simp only [IMGDATA_FILE_BLOCK_SIZE]
  have e1 : (s + 4294967295) % 4294967296 = s - 1 := by omega
  rw [e1]
  have e2 : ((s - 1) / 512 + 1) * 512 < 4294967296 := by omega
  rw [Nat.mod_eq_of_lt e2]
  omega

/-- C17.  For every size `s` with `1 <= s <= 2^32 - 512`, the length that
`read_file_imgs` computes, allocates and reads for an entry of that size is
`ceil(s / 512) * 512`, the least multiple of 512 that is at least `s`, and a
container that holds these bytes at the offset of the entry yields a content
of exactly that length; for `s = 0` the wrap of `s - 1` gives the length 0. -/
theorem read_file_imgs_length (s : Nat) (h1 : 1 ≤ s) (h2 : s ≤ 4294967296 - 512) :
    read_size s = ceil_blocks s * 512 ∧
    s ≤ read_size s ∧ read_size s % 512 = 0 ∧ read_size s < s + 512 ∧
    (∀ (img : List Nat) (f : imgdata_file), f.size = s →
      f.offset + ceil_blocks s * 512 ≤ img.length →
      ∃ c, read_file_imgs img [f] = some [c] ∧ c.size = ceil_blocks s * 512 ∧
        c.content = (img.drop f.offset).take (ceil_blocks s * 512) ∧
        c.content.length = ceil_blocks s * 512) ∧
    read_size 0 = 0 := by
  have hr : read_size s = ceil_blocks s * 512 := read_size_eq_aligned s h1 h2
  have hc : ceil_blocks s = (s + 511) / 512 := rfl
  refine ⟨hr, ?_, ?_, ?_, ?_, by decide⟩
  · rw [hr, hc]; omega
  · rw [hr]; omega
  · rw [hr, hc]; omega
  · intro img f hs hlen
    have hne : ¬ (read_size f.size = 0 ∨ img.length < f.offset + read_size f.size) := by
      rw [hs, hr, hc] at *
      omega
    have hrs : read_size f.size = ceil_blocks s * 512 := by rw [hs, hr]
    refine ⟨⟨strncpy f.name IMGDATA_FILE_NAME_SIZE ++ [0], read_size f.size,
      (img.drop f.offset).take (read_size f.size)⟩, ?_, hrs, ?_, ?_⟩
    · simp only [read_file_imgs, hne, if_false]
    · simp only [hrs]
    · simp only [hrs, List.length_take, List.length_drop]
      omega

/-- Witness of C17: the size 512 is read as one block of 512 bytes. -/
theorem read_file_imgs_length_witness :
    read_size 512 = ceil_blocks 512 * 512 ∧ read_size 512 = 512 ∧ read_size 0 = 0 := by
  obtain ⟨h, _, _, _, _, h0⟩ := read_file_imgs_length 512 (by decide) (by decide)
  exact ⟨h, by decide, h0⟩

/-! ## Claims about offsets out of range -/

theorem update_header_loop_length (imgs : List imgdata_file) (ufile : List arg) (oc : Int) :
    (update_header_loop imgs ufile oc).length = imgs.length := by
  induction imgs generalizing oc with
  | nil => rfl
  | cons f rest ih => simp [update_header_loop, ih]

theorem update_header_loop_get_at (imgs : List imgdata_file) (ufile : List arg) (oc : Int)
    (j : Nat) (hj : j < imgs.length) :
    (update_header_loop imgs ufile oc)[j]? =
      some (update_entry { imgs.get ⟨j, hj⟩ with
        offset := add_uint_int (imgs.get ⟨j, hj⟩).offset (offchange_at imgs ufile oc j) }
        (offchange_at imgs ufile oc j) ufile).1 := by
  induction imgs generalizing oc j with
  | nil => simp at hj
  | cons f rest ih =>
    cases j with
    | zero => simp [update_header_loop, offchange_at]
    | succ j =>
      have hj' : j < rest.length := by simpa using hj
      have h := ih (update_entry { f with offset := add_uint_int f.offset oc } oc ufile).2 j hj'
      simpa [update_header_loop, offchange_at] using h

theorem add_uint_int_lt (a : Nat) (b : Int) : add_uint_int a b < 4294967296 := by
  unfold add_uint_int
  omega

/-- C18, as the code has it.  `update_header` reports no error and checks no
range: for every table and argument list it returns a table of the same
length, in which the entry at `j` is the result of the inner loop on the entry
whose offset is the stored offset plus `offchange`, reduced modulo 2^32; so
every offset that it stores is below 2^32. -/
theorem update_header_wraps (imgs : List imgdata_file) (ufile : List arg) (j : Nat)
    (hj : j < imgs.length) :
    (update_header imgs ufile).length = imgs.length ∧
    ∃ f, (update_header imgs ufile)[j]? = some f ∧
      f = (update_entry { imgs.get ⟨j, hj⟩ with
        offset := add_uint_int (imgs.get ⟨j, hj⟩).offset (offchange_at imgs ufile 0 j) }
        (offchange_at imgs ufile 0 j) ufile).1 ∧
      f.offset = ((((imgs.get ⟨j, hj⟩).offset : Int) + offchange_at imgs ufile 0 j)
        % 4294967296).toNat ∧
      f.offset < 4294967296 := by
  refine ⟨update_header_loop_length imgs ufile 0, _,
    update_header_loop_get_at imgs ufile 0 j hj, rfl, ?_, ?_⟩
  · unfold update_entry
    rw [foldl_update_one_offset]
    rfl
  · unfold update_entry
    rw [foldl_update_one_offset]
    exact add_uint_int_lt _ _

/-- Witness of C18 as the code has it: the second offset, 2^32 - 512, with an
`offchange` of 1024 is stored as 512. -/
theorem update_header_wraps_witness :
    ∃ f, (update_header [⟨name_boot, 5, 5, 0, 0, 1024, 100⟩,
        ⟨name_bootloader, 1, 1, 0, 0, 4294966784, 600⟩]
        [⟨arg_boot_png, 0, 0, 3, 3, 1300, 1536, 28, []⟩])[1]? = some f ∧
      f.offset < 4294967296 := by
  obtain ⟨_, f, h1, _, _, h2⟩ := update_header_wraps
    [⟨name_boot, 5, 5, 0, 0, 1024, 100⟩, ⟨name_bootloader, 1, 1, 0, 0, 4294966784, 600⟩]
    [⟨arg_boot_png, 0, 0, 3, 3, 1300, 1536, 28, []⟩] 1 (by decide)
  exact ⟨f, h1, h2⟩

/-- C18 fails on the code.  The second entry lies at 2^32 - 512 and the first
grows by two blocks, so the recomputed offset is 2^32 + 512 in unbounded
integers; `update_header` returns a table all the same, with the size of the
first entry changed and the second offset wrapped to 512. -/
theorem update_header_overflow_applied :
    (4294966784 : Int) + offchange_at [⟨name_boot, 5, 5, 0, 0, 1024, 100⟩,
        ⟨name_bootloader, 1, 1, 0, 0, 4294966784, 600⟩]
        [⟨arg_boot_png, 0, 0, 3, 3, 1300, 1536, 28, []⟩] 0 1 = 4294967808
    ∧ (4294967295 : Int) < 4294967808
    ∧ (update_header [⟨name_boot, 5, 5, 0, 0, 1024, 100⟩,
        ⟨name_bootloader, 1, 1, 0, 0, 4294966784, 600⟩]
        [⟨arg_boot_png, 0, 0, 3, 3, 1300, 1536, 28, []⟩]).map (fun f => (f.offset, f.size))
      = [(1024, 1300), (512, 600)]
    ∧ update_header [⟨name_boot, 5, 5, 0, 0, 1024, 100⟩,
        ⟨name_bootloader, 1, 1, 0, 0, 4294966784, 600⟩]
        [⟨arg_boot_png, 0, 0, 3, 3, 1300, 1536, 28, []⟩]
      ≠ [⟨name_boot, 5, 5, 0, 0, 1024, 100⟩, ⟨name_bootloader, 1, 1, 0, 0, 4294966784, 600⟩] := by
  decide

/-! ## Claims about the exit status -/

/-- C19, evaluated where the code departs from it.  The container starts with
"IMGDATA?", so `read_file_header` returns `EXIT_FAILURE` before its `malloc`;
whatever `malloc` and libpng do, in each of the modes list, extract, update
and replace `main` calls `print_usage` with "not a valid imgdata.img", leaves
the `switch` by `break` and returns `EXIT_SUCCESS`, which is 0. -/
theorem main_invalid_container_status (malloc : Nat → Bool) (png : libpng) :
    read_file_header malloc
        ([73, 77, 71, 68, 65, 84, 65, 63, 1, 0, 0, 0, 1, 0, 0, 0, 0, 0, 0, 0, 0, 0, 0, 0]
          ++ file_bytes ⟨name_boot, 1, 1, 0, 0, 1024, 4⟩) = outcome.failure
    ∧ (main malloc png RUN_LIST
        ([73, 77, 71, 68, 65, 84, 65, 63, 1, 0, 0, 0, 1, 0, 0, 0, 0, 0, 0, 0, 0, 0, 0, 0]
          ++ file_bytes ⟨name_boot, 1, 1, 0, 0, 1024, 4⟩) [])
      = { main_result.idle 0 with invalid := true }
    ∧ (main malloc png RUN_EXTRACT
        ([73, 77, 71, 68, 65, 84, 65, 63, 1, 0, 0, 0, 1, 0, 0, 0, 0, 0, 0, 0, 0, 0, 0, 0]
          ++ file_bytes ⟨name_boot, 1, 1, 0, 0, 1024, 4⟩) [])
      = { main_result.idle 0 with invalid := true }
    ∧ (main malloc png RUN_UPDATE
        ([73, 77, 71, 68, 65, 84, 65, 63, 1, 0, 0, 0, 1, 0, 0, 0, 0, 0, 0, 0, 0, 0, 0, 0]
          ++ file_bytes ⟨name_boot, 1, 1, 0, 0, 1024, 4⟩)
        [⟨[98, 111, 111, 116], 3, 4, 0, 0, 0, 0, 3, []⟩])
      = { main_result.idle 0 with invalid := true }
    ∧ (main malloc png RUN_REPLACE
        ([73, 77, 71, 68, 65, 84, 65, 63, 1, 0, 0, 0, 1, 0, 0, 0, 0, 0, 0, 0, 0, 0, 0, 0]
          ++ file_bytes ⟨name_boot, 1, 1, 0, 0, 1024, 4⟩)
        [png_arg arg_boot_png 1 [[⟨255, 0, 0⟩]]])
      = { main_result.idle 0 with invalid := true } := by
  have hf := read_file_header_magic_failure malloc
    ([73, 77, 71, 68, 65, 84, 65, 63, 1, 0, 0, 0, 1, 0, 0, 0, 0, 0, 0, 0, 0, 0, 0, 0]
      ++ file_bytes ⟨name_boot, 1, 1, 0, 0, 1024, 4⟩) (by decide)
  refine ⟨hf, ?_, ?_, ?_, ?_⟩
  · unfold main
    rw [if_neg (by decide), if_pos (by decide), hf]
    rfl
  · unfold main
    rw [if_neg (by decide), if_neg (by decide), if_pos (by decide), hf]
    rfl
  · unfold main
    rw [if_neg (by decide), if_neg (by decide), if_neg (by decide), if_pos (by decide), hf]
    rfl
  · unfold main
    rw [if_neg (by decide), if_neg (by decide), if_neg (by decide), if_neg (by decide),
      if_pos (by decide), hf]
    rfl

/-! ## Claims about writing and reading back the header -/

theorem le32_bytes_length (n : Nat) : (le32_bytes n).length = 4 := rfl

theorem le32_le32_bytes (n : Nat) (h : n < 4294967296) (rest : List Nat) :
    le32 (le32_bytes n ++ rest) = n := by
  simp only [le32, le32_bytes, List.cons_append, List.nil_append, List.getD_cons_zero,
    List.getD_cons_succ]
  omega

theorem le32_bytes_le32 (b : List Nat) (hlen : 4 ≤ b.length) (hb : ∀ x ∈ b, x < 256) :
    le32_bytes (le32 b) = b.take 4 := by
  match b, hlen, hb with
  | b0 :: b1 :: b2 :: b3 :: rest, _, hb =>
    have h0 := hb b0 (by simp)
    have h1 := hb b1 (by simp)
    have h2 := hb b2 (by simp)
    have h3 := hb b3 (by simp)
    simp only [le32, le32_bytes, List.getD_cons_zero, List.getD_cons_succ, List.take_succ_cons,
      List.take_zero, List.cons.injEq, and_true]
    refine ⟨by omega, by omega, by omega, by omega⟩

theorem drop_name_append (name t : List Nat) (k : Nat) (hn : name.length = 16) :
    (name ++ t).drop (16 + k) = t.drop k := by
  rw [← hn, List.drop_append]

theorem drop_le32_append (n k : Nat) (t : List Nat) :
    (le32_bytes n ++ t).drop (4 + k) = t.drop k := by
  rw [← le32_bytes_length n, List.drop_append]

theorem file_bytes_length (f : imgdata_file) (hn : f.name.length = 16) :
    (file_bytes f).length = 40 := by
  simp [file_bytes, hn, le32_bytes_length]

theorem parse_file_bytes (f : imgdata_file) (rest : List Nat) (hn : f.name.length = 16)
    (hw : f.imgwidth < 4294967296) (hh : f.imgheight < 4294967296)
    (hx : f.scrxpos < 4294967296) (hy : f.scrypos < 4294967296)
    (ho : f.offset < 4294967296) (hs : f.size < 4294967296) :
    parse_file (file_bytes f ++ rest) = f := by
  have e : file_bytes f ++ rest = f.name ++ (le32_bytes f.imgwidth ++ (le32_bytes f.imgheight ++
      (le32_bytes f.scrxpos ++ (le32_bytes f.scrypos ++ (le32_bytes f.offset ++
      (le32_bytes f.size ++ rest)))))) := by
    simp [file_bytes, List.append_assoc]
  rw [e]
  unfold parse_file
  have d16 := drop_name_append f.name (le32_bytes f.imgwidth ++ (le32_bytes f.imgheight ++
      (le32_bytes f.scrxpos ++ (le32_bytes f.scrypos ++ (le32_bytes f.offset ++
      (le32_bytes f.size ++ rest)))))) 0 hn
  have d20 := drop_name_append f.name (le32_bytes f.imgwidth ++ (le32_bytes f.imgheight ++
      (le32_bytes f.scrxpos ++ (le32_bytes f.scrypos ++ (le32_bytes f.offset ++
      (le32_bytes f.size ++ rest)))))) 4 hn
  have d24 := drop_name_append f.name (le32_bytes f.imgwidth ++ (le32_bytes f.imgheight ++
      (le32_bytes f.scrxpos ++ (le32_bytes f.scrypos ++ (le32_bytes f.offset ++
      (le32_bytes f.size ++ rest)))))) 8 hn
  have d28 := drop_name_append f.name (le32_bytes f.imgwidth ++ (le32_bytes f.imgheight ++
      (le32_bytes f.scrxpos ++ (le32_bytes f.scrypos ++ (le32_bytes f.offset ++
      (le32_bytes f.size ++ rest)))))) 12 hn
  have d32 := drop_name_append f.name (le32_bytes f.imgwidth ++ (le32_bytes f.imgheight ++
      (le32_bytes f.scrxpos ++ (le32_bytes f.scrypos ++ (le32_bytes f.offset ++
      (le32_bytes f.size ++ rest)))))) 16 hn
  have d36 := drop_name_append f.name (le32_bytes f.imgwidth ++ (le32_bytes f.imgheight ++
      (le32_bytes f.scrxpos ++ (le32_bytes f.scrypos ++ (le32_bytes f.offset ++
      (le32_bytes f.size ++ rest)))))) 20 hn
  simp only [Nat.reduceAdd] at d16 d20 d24 d28 d32 d36
  rw [d16, d20, d24, d28, d32, d36, List.take_left' hn]
  have s4 : ∀ (n : Nat) (t : List Nat), (le32_bytes n ++ t).drop 4 = t :=
    fun n t => drop_le32_append n 0 t
  have s8 : ∀ (a b : Nat) (t : List Nat), (le32_bytes a ++ (le32_bytes b ++ t)).drop 8 = t :=
    fun a b t => by rw [show (8 : Nat) = 4 + 4 from rfl, drop_le32_append, s4]
  have s12 : ∀ (a b c : Nat) (t : List Nat),
      (le32_bytes a ++ (le32_bytes b ++ (le32_bytes c ++ t))).drop 12 = t :=
    fun a b c t => by rw [show (12 : Nat) = 4 + 8 from rfl, drop_le32_append, s8]
  have s16 : ∀ (a b c d : Nat) (t : List Nat),
      (le32_bytes a ++ (le32_bytes b ++ (le32_bytes c ++ (le32_bytes d ++ t)))).drop 16 = t :=
    fun a b c d t => by rw [show (16 : Nat) = 4 + 12 from rfl, drop_le32_append, s12]
  have s20 : ∀ (a b c d e : Nat) (t : List Nat),
      (le32_bytes a ++ (le32_bytes b ++ (le32_bytes c ++ (le32_bytes d ++
        (le32_bytes e ++ t))))).drop 20 = t :=
    fun a b c d e t => by rw [show (20 : Nat) = 4 + 16 from rfl, drop_le32_append, s16]
  rw [List.drop_zero, s4, s8, s12, s16, s20]
  rw [le32_le32_bytes _ hw, le32_le32_bytes _ hh, le32_le32_bytes _ hx, le32_le32_bytes _ hy,
    le32_le32_bytes _ ho, le32_le32_bytes _ hs]

theorem parse_files_bytes (imgs : List imgdata_file) (rest : List Nat)
    (hok : ∀ f ∈ imgs, file_ok f) :
    parse_files imgs.length (imgs.flatMap file_bytes ++ rest) = imgs := by
  induction imgs with
  | nil => rfl
  | cons f fs ih =>
    obtain ⟨hn, hw, hh, hx, hy, ho, hs⟩ := hok f (List.mem_cons_self _ _)
    have hlen := file_bytes_length f hn
    simp only [List.length_cons, parse_files, List.flatMap_cons, List.append_assoc]
    rw [List.take_left' hlen, List.drop_left' hlen]
    have := parse_file_bytes f [] hn hw hh hx hy ho hs
    rw [List.append_nil] at this
    rw [this, ih (fun g hg => hok g (List.mem_cons_of_mem _ hg))]

theorem flatMap_file_bytes_length (imgs : List imgdata_file) (hok : ∀ f ∈ imgs, file_ok f) :
    (imgs.flatMap file_bytes).length = 40 * imgs.length := by
  induction imgs with
  | nil => rfl
  | cons f fs ih =>
    simp only [List.flatMap_cons, List.length_append, List.length_cons,
      file_bytes_length f (hok f (List.mem_cons_self _ _)).1,
      ih (fun g hg => hok g (List.mem_cons_of_mem _ hg))]
    omega

theorem hdr_bytes_length (bimg : imgdatahdr) (hm : bimg.magic.length = 8) :
    (hdr_bytes bimg).length = 24 := by
  simp [hdr_bytes, hm, le32_bytes_length]

theorem parse_hdr_bytes (bimg : imgdatahdr) (hm : bimg.magic.length = 8)
    (hu : bimg.unknown < 4294967296) (hn : bimg.num_files < 4294967296)
    (ha : bimg.padding_a < 4294967296) (hb : bimg.padding_b < 4294967296) :
    parse_hdr (hdr_bytes bimg) = bimg := by
  have e : hdr_bytes bimg = bimg.magic ++ (le32_bytes bimg.unknown ++
      (le32_bytes bimg.num_files ++ (le32_bytes bimg.padding_a ++
      (le32_bytes bimg.padding_b ++ [])))) := by
    simp [hdr_bytes, List.append_assoc]
  rw [e]
  unfold parse_hdr
  have dm : ∀ (k : Nat) (t : List Nat), (bimg.magic ++ t).drop (8 + k) = t.drop k := by
    intro k t
    rw [← hm, List.drop_append]
  have d8 := dm 0 (le32_bytes bimg.unknown ++ (le32_bytes bimg.num_files ++
      (le32_bytes bimg.padding_a ++ (le32_bytes bimg.padding_b ++ []))))
  have d12 := dm 4 (le32_bytes bimg.unknown ++ (le32_bytes bimg.num_files ++
      (le32_bytes bimg.padding_a ++ (le32_bytes bimg.padding_b ++ []))))
  have d16 := dm 8 (le32_bytes bimg.unknown ++ (le32_bytes bimg.num_files ++
      (le32_bytes bimg.padding_a ++ (le32_bytes bimg.padding_b ++ []))))
  have d20 := dm 12 (le32_bytes bimg.unknown ++ (le32_bytes bimg.num_files ++
      (le32_bytes bimg.padding_a ++ (le32_bytes bimg.padding_b ++ []))))
  simp only [Nat.reduceAdd] at d8 d12 d16 d20
  rw [d8, d12, d16, d20, List.take_left' hm]
  have s4 : ∀ (n : Nat) (t : List Nat), (le32_bytes n ++ t).drop 4 = t :=
    fun n t => drop_le32_append n 0 t
  have s8 : ∀ (a b : Nat) (t : List Nat), (le32_bytes a ++ (le32_bytes b ++ t)).drop 8 = t :=
    fun a b t => by rw [show (8 : Nat) = 4 + 4 from rfl, drop_le32_append, s4]
  have s12 : ∀ (a b c : Nat) (t : List Nat),
      (le32_bytes a ++ (le32_bytes b ++ (le32_bytes c ++ t))).drop 12 = t :=
    fun a b c t => by rw [show (12 : Nat) = 4 + 8 from rfl, drop_le32_append, s8]
  rw [List.drop_zero, s4, s8, s12]
  rw [le32_le32_bytes _ hu, le32_le32_bytes _ hn, le32_le32_bytes _ ha, le32_le32_bytes _ hb]

theorem le32_bytes_le32_drop (c : List Nat) (k : Nat) (hlen : k + 4 ≤ c.length)
    (hb : bytes_ok c) : le32_bytes (le32 (c.drop k)) = (c.drop k).take 4 := by
  apply le32_bytes_le32
  · rw [List.length_drop]; omega
  · intro x hx
    exact hb x (List.mem_of_mem_drop hx)

theorem file_bytes_parse (c : List Nat) (hlen : 40 ≤ c.length) (hb : bytes_ok c) :
    file_bytes (parse_file c) = c.take 40 := by
  unfold file_bytes parse_file
  simp only
  rw [le32_bytes_le32_drop c 16 (by omega) hb, le32_bytes_le32_drop c 20 (by omega) hb,
    le32_bytes_le32_drop c 24 (by omega) hb, le32_bytes_le32_drop c 28 (by omega) hb,
    le32_bytes_le32_drop c 32 (by omega) hb, le32_bytes_le32_drop c 36 (by omega) hb]
  rw [← List.take_add, ← List.take_add, ← List.take_add, ← List.take_add, ← List.take_add,
    ← List.take_add]

theorem hdr_bytes_parse (c : List Nat) (hlen : 24 ≤ c.length) (hb : bytes_ok c) :
    hdr_bytes (parse_hdr c) = c.take 24 := by
  unfold hdr_bytes parse_hdr
  simp only
  rw [le32_bytes_le32_drop c 8 (by omega) hb, le32_bytes_le32_drop c 12 (by omega) hb,
    le32_bytes_le32_drop c 16 (by omega) hb, le32_bytes_le32_drop c 20 (by omega) hb]
  rw [← List.take_add, ← List.take_add, ← List.take_add, ← List.take_add]

theorem parse_files_length (n : Nat) (d : List Nat) : (parse_files n d).length = n := by
  induction n generalizing d with
  | zero => rfl
  | succ n ih => simp [parse_files, ih]

theorem flatMap_parse_files (n : Nat) (d : List Nat) (hlen : 40 * n ≤ d.length)
    (hb : bytes_ok d) : (parse_files n d).flatMap file_bytes = d.take (40 * n) := by
  induction n generalizing d with
  | zero => simp [parse_files]
  | succ n ih =>
    simp only [parse_files, List.flatMap_cons]
    rw [file_bytes_parse (d.take 40) (by rw [List.length_take]; omega)
      (fun x hx => hb x (List.mem_of_mem_take hx))]
    rw [ih (d.drop 40) (by rw [List.length_drop]; omega)
      (fun x hx => hb x (List.mem_of_mem_drop hx))]
    rw [List.take_take, Nat.min_self, ← List.take_add]
    congr 1
    omega

theorem read_file_header_some (malloc : Nat → Bool) (img : List Nat)
    (r : imgdatahdr × List imgdata_file)
    (h : read_file_header malloc img = outcome.ok r) :
    24 ≤ img.length ∧ r.1 = parse_hdr (img.take 24) ∧
      min r.1.num_files ((img.length - 24) / 40) ≠ 0 ∧
      min r.1.num_files ((img.length - 24) / 40) < 2147483648 ∧
      r.2 = parse_files (min r.1.num_files ((img.length - 24) / 40)) (img.drop 24) := by
  unfold read_file_header at h
  by_cases h1 : img.length < 24
  · rw [if_pos h1] at h
    exact absurd h (by simp)
  · rw [if_neg h1] at h
    simp only at h
    by_cases h2 : strncmp (parse_hdr (img.take 24)).magic IMGDATA_MAGIC IMGDATA_MAGIC_SIZE ≠ 0
    · rw [if_pos h2] at h
      exact absurd h (by simp)
    · rw [if_neg h2] at h
      by_cases hm : malloc ((parse_hdr (img.take 24)).num_files * 40) = false
      · rw [if_pos hm] at h
        exact absurd h (by simp)
      · rw [if_neg hm] at h
        by_cases h3 : min (parse_hdr (img.take 24)).num_files ((img.length - 24) / 40) = 0 ∨
            2147483648 ≤ min (parse_hdr (img.take 24)).num_files ((img.length - 24) / 40)
        · rw [if_pos h3] at h
          exact absurd h (by simp)
        · rw [if_neg h3] at h
          simp only [outcome.ok.injEq] at h
          subst h
          simp only at h3 ⊢
          exact ⟨by omega, trivial, by omega, by omega, trivial⟩

/-- C20.  For every header with the magic "IMGDATA!" and an entry count `n`
with `1 <= n < 2^31`, and every table of `n` entries (all fields fitting
their C types), `write_file_header` writes exactly `24 + 40 * n` bytes, the
header followed by the entries in table order with the fields in declared
order, and `read_file_header` on these bytes, its `malloc` of `40 * n` bytes
giving memory, succeeds and returns the same header and the same entries (it
returns failure when `malloc` gives none).  Conversely, for a container that
holds its whole table, writing back what `read_file_header` returned writes
the first `24 + 40 * n` bytes of the container. -/
theorem write_read_header_roundtrip (malloc : Nat → Bool) (bimg : imgdatahdr)
    (imgs : List imgdata_file)
    (hm : bimg.magic = IMGDATA_MAGIC) (hn1 : 1 ≤ bimg.num_files)
    (hn2 : bimg.num_files < 2147483648) (hlen : imgs.length = bimg.num_files)
    (hu : bimg.unknown < 4294967296) (ha : bimg.padding_a < 4294967296)
    (hb : bimg.padding_b < 4294967296) (hok : ∀ f ∈ imgs, file_ok f) :
    (∃ bytes, write_file_header bimg imgs = outcome.ok bytes ∧
      bytes = hdr_bytes bimg ++ imgs.flatMap file_bytes ∧
      bytes.length = 24 + 40 * bimg.num_files ∧
      read_file_header malloc bytes
        = (if malloc (bimg.num_files * 40) = false then outcome.failure
           else outcome.ok (bimg, imgs)) ∧
      (malloc (bimg.num_files * 40) = true →
        read_file_header malloc bytes = outcome.ok (bimg, imgs))) ∧
    (∀ (img : List Nat) (r : imgdatahdr × List imgdata_file), bytes_ok img →
      read_file_header malloc img = outcome.ok r → 24 + 40 * r.1.num_files ≤ img.length →
      write_file_header r.1 r.2 = outcome.ok (img.take (24 + 40 * r.1.num_files))) := by
  have hml : bimg.magic.length = 8 := by rw [hm]; rfl
  have hhl := hdr_bytes_length bimg hml
  have hfl := flatMap_file_bytes_length imgs hok
  constructor
  · have hread : read_file_header malloc (hdr_bytes bimg ++ imgs.flatMap file_bytes)
        = (if malloc (bimg.num_files * 40) = false then outcome.failure
           else outcome.ok (bimg, imgs)) := by
      have hlen2 : (hdr_bytes bimg ++ imgs.flatMap file_bytes).length
          = 24 + 40 * bimg.num_files := by
        rw [List.length_append, hhl, hfl, hlen]
      have hparse : parse_hdr ((hdr_bytes bimg ++ imgs.flatMap file_bytes).take 24) = bimg := by
        rw [List.take_left' hhl]
        exact parse_hdr_bytes bimg hml hu (by omega) ha hb
      have hcmp : strncmp bimg.magic IMGDATA_MAGIC IMGDATA_MAGIC_SIZE = 0 := by
        rw [hm]; decide
      have hread : min bimg.num_files (((hdr_bytes bimg ++ imgs.flatMap file_bytes).length - 24)
          / 40) = bimg.num_files := by
        rw [hlen2]; omega
      have htab : parse_files bimg.num_files
          ((hdr_bytes bimg ++ imgs.flatMap file_bytes).drop 24) = imgs := by
        rw [List.drop_left' hhl, ← hlen]
        have := parse_files_bytes imgs [] hok
        rw [List.append_nil] at this
        exact this
      unfold read_file_header
      rw [if_neg (by omega)]
      simp only [hparse, hcmp, hread, htab, ne_eq, not_true_eq_false, if_false]
      by_cases hmal : malloc (bimg.num_files * 40) = false
      · rw [if_pos hmal, if_pos hmal]
      · rw [if_neg hmal, if_neg hmal, if_neg (by omega)]
    refine ⟨hdr_bytes bimg ++ imgs.flatMap file_bytes, ?_, rfl, ?_, hread, ?_⟩
    · unfold write_file_header
      rw [if_neg (by omega), List.take_of_length_le (by omega)]
    · rw [List.length_append, hhl, hfl, hlen]
    · intro hmal
      rw [hread, if_neg (by simp [hmal])]
  · intro img r hbytes hr hfull
    obtain ⟨h24, hhdr, hr0, hr31, htab⟩ := read_file_header_some malloc img r hr
    have hmin : min r.1.num_files ((img.length - 24) / 40) = r.1.num_files := by omega
    rw [hmin] at hr0 hr31 htab
    unfold write_file_header
    rw [if_neg (by omega), htab,
      List.take_of_length_le (by rw [parse_files_length]),
      flatMap_parse_files _ _ (by rw [List.length_drop]; omega)
        (fun x hx => hbytes x (List.mem_of_mem_drop hx))]
    rw [hhdr, hdr_bytes_parse _ (by rw [List.length_take]; omega)
      (fun x hx => hbytes x (List.mem_of_mem_take hx))]
    rw [List.take_take, Nat.min_self, ← List.take_add]

/-- Witness of C20: a header of one entry, "boot", with a `malloc` that gives
memory. -/
theorem write_read_header_roundtrip_witness :
    ∃ bytes, write_file_header ⟨IMGDATA_MAGIC, 1, 1, 7, 9⟩ [⟨name_boot, 3, 2, 10, 20, 1024, 24⟩]
        = outcome.ok bytes ∧
      bytes.length = 24 + 40 * 1 ∧
      read_file_header malloc_ok bytes
        = outcome.ok (⟨IMGDATA_MAGIC, 1, 1, 7, 9⟩, [⟨name_boot, 3, 2, 10, 20, 1024, 24⟩]) := by
  obtain ⟨⟨bytes, h1, _, h2, _, h3⟩, _⟩ := write_read_header_roundtrip malloc_ok
    ⟨IMGDATA_MAGIC, 1, 1, 7, 9⟩ [⟨name_boot, 3, 2, 10, 20, 1024, 24⟩] rfl (by decide)
    (by decide) rfl (by decide) (by decide) (by decide) (by decide)
  exact ⟨bytes, h1, h2, h3 rfl⟩

/-! ## Claims about scenarios of the specification -/

theorem update_one_matched (f : imgdata_file) (oc : Int) (u : arg)
    (h : name_matches u f = true) : update_one (f, oc) u = apply_marks u f oc := by
  simp only [update_one, h, if_true]

/-- C21.  For the table of two entries of sizes 100 and 600 at the offsets 1024
and 1536 and one size-marked argument of size 1300 that matches the first entry
and not the second, `update_header` returns a table of two entries, the first
with offset 1024 and size 1300, the second with offset 2560 and size 600. -/
theorem update_header_scenario_b (f1 f2 : imgdata_file) (u : arg)
    (ho1 : f1.offset = 1024) (hs1 : f1.size = 100) (ho2 : f2.offset = 1536)
    (hs2 : f2.size = 600) (hm1 : name_matches u f1 = true) (hm2 : name_matches u f2 = false)
    (hmark : u.mark &&& MARK_S ≠ 0) (hsize : u.size = 1300) :
    ∃ g1 g2, update_header [f1, f2] [u] = [g1, g2] ∧
      g1.offset = 1024 ∧ g1.size = 1300 ∧ g2.offset = 2560 ∧ g2.size = 600 := by
  have hm1' : name_matches u { f1 with offset := add_uint_int f1.offset 0 } = true :=
    (name_matches_congr u f1 _ rfl).trans hm1
  have h1 : update_one ({ f1 with offset := add_uint_int f1.offset 0 }, 0) u
      = apply_marks u { f1 with offset := add_uint_int f1.offset 0 } 0 :=
    update_one_matched _ _ _ hm1'
  have hoc : (apply_marks u { f1 with offset := add_uint_int f1.offset 0 } 0).2 = 1024 := by
    simp only [apply_marks, hmark, ne_eq, not_false_eq_true, if_true, hs1, hsize]
    decide
  have hm2' : name_matches u
      ({ f2 with offset := add_uint_int f2.offset 1024 }, (1024 : Int)).1 = false :=
    (name_matches_congr u f2 _ rfl).trans hm2
  have h2 : update_one ({ f2 with offset := add_uint_int f2.offset 1024 }, 1024) u
      = ({ f2 with offset := add_uint_int f2.offset 1024 }, 1024) :=
    update_one_unmatched _ u hm2'
  have e : update_header [f1, f2] [u]
      = [(apply_marks u { f1 with offset := add_uint_int f1.offset 0 } 0).1,
         { f2 with offset := add_uint_int f2.offset 1024 }] := by
    simp only [update_header, update_header_loop, update_entry, List.foldl_cons,
      List.foldl_nil, h1, hoc, h2]
  refine ⟨_, _, e, ?_, ?_, ?_, ?_⟩
  · simp only [apply_marks, ho1]
    decide
  · simp only [apply_marks, hmark, ne_eq, not_false_eq_true, if_true, hsize]
  · simp only [ho2]
    decide
  · exact hs2

/-- Witness of C21: the entries "boot" and "bootloader" and the argument
"boot.png" with the size mark only. -/
theorem update_header_scenario_b_witness :
    ∃ g1 g2, update_header [⟨name_boot, 5, 5, 0, 0, 1024, 100⟩,
        ⟨name_bootloader, 1, 1, 0, 0, 1536, 600⟩]
        [⟨arg_boot_png, 0, 0, 0, 0, 1300, 1536, 16, []⟩] = [g1, g2] ∧
      g1.offset = 1024 ∧ g1.size = 1300 ∧ g2.offset = 2560 ∧ g2.size = 600 :=
  update_header_scenario_b ⟨name_boot, 5, 5, 0, 0, 1024, 100⟩
    ⟨name_bootloader, 1, 1, 0, 0, 1536, 600⟩ ⟨arg_boot_png, 0, 0, 0, 0, 1300, 1536, 16, []⟩
    rfl rfl rfl rfl (by decide) (by decide) (by decide) rfl

/-! ## Claims about the names of the extracted files -/

/-- C22, evaluated where the code departs from it.  The name field of the only
entry holds 16 characters and no NUL, and the width 300 follows it as the
bytes 44, 1, 0, 0.  `extract_contents` calls `strlen` and `sprintf("%s.png")`
on the field, which read on to the first NUL: the file created is named
"abcdefghijklmnop" followed by the bytes 44 and 1 of the width and ".png",
not "abcdefghijklmnop.png".  The file is created before `convert_to_png` is
called; `malloc` gives memory here. -/
theorem extract_contents_name_overrun :
    (read_file_header malloc_ok img_long_name).toOption.map
        (fun r => r.2.map (fun f => (f.name, f.imgwidth)))
      = some [([97, 98, 99, 100, 101, 102, 103, 104, 105, 106, 107, 108, 109, 110, 111, 112],
          300)]
    ∧ (main malloc_ok libpng_rows RUN_EXTRACT img_long_name []).files.map (fun x => x.1)
      = [[97, 98, 99, 100, 101, 102, 103, 104, 105, 106, 107, 108, 109, 110, 111, 112,
          44, 1, 46, 112, 110, 103]]
    ∧ field_name [97, 98, 99, 100, 101, 102, 103, 104, 105, 106, 107, 108, 109, 110, 111, 112]
        ++ [46, 112, 110, 103]
      = [97, 98, 99, 100, 101, 102, 103, 104, 105, 106, 107, 108, 109, 110, 111, 112,
          46, 112, 110, 103] := by
  decide

/-! ## Claims about the entry count -/

theorem le32_take (l : List Nat) (n : Nat) (h : 4 ≤ n) : le32 (l.take n) = le32 l := by
  have g : ∀ i, i < 4 → (l.take n).getD i 0 = l.getD i 0 := by
    intro i hi
    simp only [List.getD_eq_getElem?_getD, List.getElem?_take]
    rw [if_pos (by omega)]
  simp only [le32, g 0 (by omega), g 1 (by omega), g 2 (by omega), g 3 (by omega)]

theorem parse_hdr_num_files (img : List Nat) :
    (parse_hdr (img.take 24)).num_files = le32 (img.drop 12) := by
  simp only [parse_hdr, List.drop_take]
  exact le32_take _ _ (by omega)

theorem parse_hdr_magic (img : List Nat) : (parse_hdr (img.take 24)).magic = img.take 8 := by
  simp [parse_hdr, List.take_take]

/-- The result of `read_file_header` on a stream of at least 24 bytes that
starts with the magic, by the answer of `malloc` and the number of records
that `fread` reads. -/
theorem read_file_header_magic (malloc : Nat → Bool) (img : List Nat) (h24 : 24 ≤ img.length)
    (hm : img.take 8 = IMGDATA_MAGIC) :
    read_file_header malloc img =
      if malloc (le32 (img.drop 12) * 40) = false then outcome.failure
      else if min (le32 (img.drop 12)) ((img.length - 24) / 40) = 0 ∨
          2147483648 ≤ min (le32 (img.drop 12)) ((img.length - 24) / 40) then outcome.abort
      else outcome.ok (parse_hdr (img.take 24),
        parse_files (min (le32 (img.drop 12)) ((img.length - 24) / 40)) (img.drop 24)) := by
  unfold read_file_header
  rw [if_neg (by omega)]
  have hc : ¬ strncmp (parse_hdr (img.take 24)).magic IMGDATA_MAGIC IMGDATA_MAGIC_SIZE ≠ 0 := by
    rw [parse_hdr_magic, hm]
    decide
  simp only [hc, if_false, parse_hdr_num_files]

/-- For every stream whose header has the magic "IMGDATA!" and the entry count
0: when `malloc(0)` returns a pointer, `fread` reads no record and
`read_file_header` aborts the process in `free(imgs)`, so `main` in the modes
list, extract, update and replace ends there, without the message "not a valid
imgdata.img"; when `malloc(0)` returns `NULL`, `read_file_header` returns
failure. -/
theorem read_file_header_zero_count (malloc : Nat → Bool) (png : libpng) (img : List Nat)
    (h24 : 24 ≤ img.length) (hm : img.take 8 = IMGDATA_MAGIC) (h0 : le32 (img.drop 12) = 0) :
    (malloc 0 = true →
      read_file_header malloc img = outcome.abort ∧
      ∀ ufile : List arg,
        main malloc png RUN_LIST img ufile = main_result.killed ∧
        main malloc png RUN_EXTRACT img ufile = main_result.killed ∧
        main malloc png RUN_UPDATE img ufile = main_result.killed ∧
        main malloc png RUN_REPLACE img ufile = main_result.killed) ∧
    (malloc 0 = false → read_file_header malloc img = outcome.failure) := by
  have hr := read_file_header_magic malloc img h24 hm
  rw [h0, Nat.zero_mul] at hr
  constructor
  · intro hmal
    have ha : read_file_header malloc img = outcome.abort := by
      rw [hr, if_neg (by simp [hmal]), if_pos (Or.inl (by simp))]
    refine ⟨ha, fun ufile => ⟨?_, ?_, ?_, ?_⟩⟩ <;>
      simp [main, ha, RUN_NONE, RUN_LIST, RUN_EXTRACT, RUN_UPDATE, RUN_REPLACE]
  · intro hmal
    rw [hr, if_pos hmal]

/-- For every stream whose header has the magic "IMGDATA!" and an entry count
`n`, with at least one but fewer than `n` complete records after the header
(so `n >= 2`; fewer than 2^31 records, the count being stored in an `int`):
`read_file_header`, its `malloc` giving memory, succeeds, with the records that
are there. -/
theorem read_file_header_short_table (malloc : Nat → Bool) (img : List Nat)
    (h24 : 24 ≤ img.length) (hm : img.take 8 = IMGDATA_MAGIC)
    (hmal : malloc (le32 (img.drop 12) * 40) = true)
    (h1 : 1 ≤ (img.length - 24) / 40)
    (hlt : (img.length - 24) / 40 < le32 (img.drop 12))
    (h31 : (img.length - 24) / 40 < 2147483648) :
    ∃ r, read_file_header malloc img = outcome.ok r ∧ r.1.num_files = le32 (img.drop 12) ∧
      r.2.length = (img.length - 24) / 40 ∧
      r.2 = parse_files ((img.length - 24) / 40) (img.drop 24) := by
  have hr := read_file_header_magic malloc img h24 hm
  have hmin : min (le32 (img.drop 12)) ((img.length - 24) / 40) = (img.length - 24) / 40 := by
    omega
  rw [hmin, if_neg (by simp [hmal]), if_neg (by omega)] at hr
  exact ⟨_, hr, parse_hdr_num_files img, parse_files_length _ _, rfl⟩

/-- C25, evaluated where the code departs from it.  The container is a header
with the magic "IMGDATA!" and the entry count 0, and nothing else; `malloc(0)`
returns a pointer.  `fread` reads no record, and line 191 of
`read_file_header` calls `free(imgs)` on the address of the variable of `main`:
the process is aborted there, the function does not return failure, and `main`
in the modes list, extract, update and replace ends without reporting "not a
valid imgdata.img".  (With a `malloc(0)` that returns `NULL` the function
returns failure.)  The other half of the claim holds: a header with the entry
count 2 followed by one record is accepted, with that one record. -/
theorem read_file_header_entry_count :
    (hdr_bytes ⟨IMGDATA_MAGIC, 1, 0, 0, 0⟩).take 8 = IMGDATA_MAGIC
    ∧ (parse_hdr ((hdr_bytes ⟨IMGDATA_MAGIC, 1, 0, 0, 0⟩).take 24)).num_files = 0
    ∧ read_file_header malloc_ok (hdr_bytes ⟨IMGDATA_MAGIC, 1, 0, 0, 0⟩) = outcome.abort
    ∧ read_file_header malloc_ok (hdr_bytes ⟨IMGDATA_MAGIC, 1, 0, 0, 0⟩) ≠ outcome.failure
    ∧ main malloc_ok libpng_rows RUN_LIST (hdr_bytes ⟨IMGDATA_MAGIC, 1, 0, 0, 0⟩) []
      = main_result.killed
    ∧ main malloc_ok libpng_rows RUN_EXTRACT (hdr_bytes ⟨IMGDATA_MAGIC, 1, 0, 0, 0⟩) []
      = main_result.killed
    ∧ main malloc_ok libpng_rows RUN_UPDATE (hdr_bytes ⟨IMGDATA_MAGIC, 1, 0, 0, 0⟩)
        [⟨[98, 111, 111, 116], 3, 4, 0, 0, 0, 0, 3, []⟩]
      = main_result.killed
    ∧ main malloc_ok libpng_rows RUN_REPLACE (hdr_bytes ⟨IMGDATA_MAGIC, 1, 0, 0, 0⟩)
        [png_arg arg_boot_png 1 [[⟨255, 0, 0⟩]]]
      = main_result.killed
    ∧ main_result.killed.invalid = false
    ∧ main_result.killed.status = none
    ∧ read_file_header (fun _ => false) (hdr_bytes ⟨IMGDATA_MAGIC, 1, 0, 0, 0⟩)
      = outcome.failure
    ∧ (read_file_header malloc_ok (hdr_bytes ⟨IMGDATA_MAGIC, 1, 2, 0, 0⟩
          ++ file_bytes ⟨name_boot, 1, 1, 0, 0, 1024, 4⟩)).toOption.map
        (fun r => (r.1.num_files, r.2))
      = some (2, [⟨name_boot, 1, 1, 0, 0, 1024, 4⟩]) := by
  decide

/-! ## Claims about the update mode -/

theorem parse_x_mark (strtol : List Nat → Int) (tok : Option (List Nat)) (a : arg)
    (h : a.mark < 1) : (parse_x strtol tok a).mark < 2 := by
  unfold parse_x
  cases tok with
  | none => simp only; omega
  | some t =>
    simp only
    split_ifs
    · omega
    · simp only [MARK_X]; omega

theorem parse_y_mark (strtol : List Nat → Int) (tok : Option (List Nat)) (a : arg)
    (h : a.mark < 2) : (parse_y strtol tok a).mark < 4 := by
  unfold parse_y
  cases tok with
  | none => simp only; omega
  | some t =>
    simp only
    split_ifs
    · omega
    · simp only [MARK_Y]; omega

theorem parse_w_mark (strtol : List Nat → Int) (tok : Option (List Nat)) (a : arg)
    (h : a.mark < 4) : (parse_w strtol tok a).mark < 8 := by
  unfold parse_w
  cases tok with
  | none => simp only; omega
  | some t =>
    simp only
    split_ifs
    · omega
    · simp only [MARK_W]; omega

theorem parse_h_mark (strtol : List Nat → Int) (tok : Option (List Nat)) (a : arg)
    (h : a.mark < 8) : (parse_h strtol tok a).mark < 16 := by
  unfold parse_h
  cases tok with
  | none => simp only; omega
  | some t =>
    simp only
    split_ifs
    · omega
    · simp only [MARK_H]; omega

theorem parse_arg_mark (strtol : List Nat → Int) (s : List Nat) (a u : arg)
    (h : parse_arg strtol s a = some u) : u.mark < 16 := by
  unfold parse_arg at h
  split at h
  · split at h
    · split_ifs at h
      simp only [Option.some.injEq] at h
      rw [← h]
      exact Nat.zero_lt_succ 15
    · exact absurd h (by simp)
  · split_ifs at h
    · simp only [Option.some.injEq] at h
      rw [← h]
      exact Nat.zero_lt_succ 15
    · simp only [Option.some.injEq] at h
      rw [← h]
      exact parse_h_mark _ _ _ (parse_w_mark _ _ _ (parse_y_mark _ _ _
        (parse_x_mark _ _ _ Nat.zero_lt_one)))

theorem parse_args_mark (strtol : List Nat → Int) (args : List (List Nat)) :
    ∀ (ifile ufile : List arg), parse_args strtol args ifile = some ufile →
      ∀ u ∈ ufile, u.mark < 16 := by
  induction args with
  | nil =>
    intro ifile ufile h u hu
    simp only [parse_args, Option.some.injEq] at h
    rw [← h] at hu
    simp at hu
  | cons s ss ih =>
    intro ifile ufile h u hu
    unfold parse_args at h
    split at h
    · exact absurd h (by simp)
    · rename_i a ha
      split at h
      · exact absurd h (by simp)
      · rename_i as has
        simp only [Option.some.injEq] at h
        rw [← h] at hu
        rcases List.mem_cons.1 hu with hu | hu
        · rw [hu]
          exact parse_arg_mark strtol s _ a ha
        · exact ih _ as has u hu

theorem mark_no_size (m : Nat) (h : m < 16) : m &&& MARK_S = 0 := by
  unfold MARK_S
  interval_cases m <;> decide

theorem update_one_size (st : imgdata_file × Int) (u : arg) (h : u.mark &&& MARK_S = 0) :
    (update_one st u).1.size = st.1.size := by
  unfold update_one
  split_ifs
  · simp only [apply_marks, h, ne_eq, not_true_eq_false, if_false]
  · rfl

theorem foldl_update_one_size (ufile : List arg) (st : imgdata_file × Int)
    (h : ∀ u ∈ ufile, u.mark &&& MARK_S = 0) :
    (ufile.foldl update_one st).1.size = st.1.size := by
  induction ufile generalizing st with
  | nil => rfl
  | cons u us ih =>
    rw [List.foldl_cons, ih _ (fun v hv => h v (List.mem_cons_of_mem _ hv)),
      update_one_size st u (h u (List.mem_cons_self _ _))]

theorem update_header_loop_no_size (imgs : List imgdata_file) (ufile : List arg)
    (hoff : ∀ f ∈ imgs, f.offset < 4294967296) (h : ∀ u ∈ ufile, u.mark &&& MARK_S = 0) :
    (update_header_loop imgs ufile 0).map (fun f => (f.offset, f.size))
      = imgs.map (fun f => (f.offset, f.size)) := by
  induction imgs with
  | nil => rfl
  | cons f rest ih =>
    have hoc : (update_entry { f with offset := add_uint_int f.offset 0 } 0 ufile).2 = 0 :=
      update_entry_offchange ufile _ 0 (fun u hu _ => h u hu)
    simp only [update_header_loop, List.map_cons, hoc]
    rw [ih (fun g hg => hoff g (List.mem_cons_of_mem _ hg))]
    unfold update_entry
    rw [foldl_update_one_offset, foldl_update_one_size ufile _ h]
    simp only [add_uint_int_zero _ (hoff f (List.mem_cons_self _ _))]

theorem le32_lt (b : List Nat) (hb : bytes_ok b) : le32 b < 4294967296 := by
  have g : ∀ i, b.getD i 0 < 256 := by
    intro i
    rw [List.getD_eq_getElem?_getD]
    cases hi : b[i]? with
    | none => simp
    | some x =>
      simp only [Option.getD_some]
      exact hb x (List.getElem?_mem hi)
  have g0 := g 0
  have g1 := g 1
  have g2 := g 2
  have g3 := g 3
  unfold le32
  omega

theorem parse_files_offset (n : Nat) (d : List Nat) (hb : bytes_ok d) :
    ∀ f ∈ parse_files n d, f.offset < 4294967296 := by
  induction n generalizing d with
  | zero => intro f hf; simp [parse_files] at hf
  | succ n ih =>
    intro f hf
    simp only [parse_files, List.mem_cons] at hf
    rcases hf with hf | hf
    · rw [hf]
      simp only [parse_file]
      exact le32_lt _ (fun x hx => hb x (List.mem_of_mem_take (List.mem_of_mem_drop hx)))
    · exact ih _ (fun x hx => hb x (List.mem_of_mem_drop hx)) f hf

/-- C23.  For every table (offsets being values of `unsigned int`) and every
argument list in which no argument has the size mark, `update_header` leaves
the offset and the size of every entry as they are.  The arguments that
`parse_args` yields never have the size mark, so `update_header` applied to
them keeps every offset and size, and in update mode `main` writes the header
of the table read, updated by these arguments, with the offsets and sizes
read (whatever `malloc` and libpng do, once `read_file_header` has
succeeded). -/
theorem update_mode_keeps_offset_size (malloc : Nat → Bool) (png : libpng)
    (strtol : List Nat → Int) (args : List (List Nat))
    (ifile ufile : List arg) (imgs : List imgdata_file)
    (hp : parse_args strtol args ifile = some ufile)
    (hoff : ∀ f ∈ imgs, f.offset < 4294967296) :
    (∀ vfile : List arg, (∀ u ∈ vfile, u.mark &&& MARK_S = 0) →
      (update_header imgs vfile).map (fun f => (f.offset, f.size))
        = imgs.map (fun f => (f.offset, f.size))) ∧
    (∀ u ∈ ufile, u.mark &&& MARK_S = 0) ∧
    (update_header imgs ufile).map (fun f => (f.offset, f.size))
      = imgs.map (fun f => (f.offset, f.size)) ∧
    (∀ (img : List Nat) (r : imgdatahdr × List imgdata_file), bytes_ok img →
      read_file_header malloc img = outcome.ok r →
      (main malloc png RUN_UPDATE img ufile).header
        = (write_file_header r.1 (update_header r.2 ufile)).toOption ∧
      (update_header r.2 ufile).map (fun f => (f.offset, f.size))
        = r.2.map (fun f => (f.offset, f.size))) := by
  have hmark : ∀ u ∈ ufile, u.mark &&& MARK_S = 0 :=
    fun u hu => mark_no_size _ (parse_args_mark strtol args ifile ufile hp u hu)
  refine ⟨fun vfile hv => update_header_loop_no_size imgs vfile hoff hv, hmark,
    update_header_loop_no_size imgs ufile hoff hmark, ?_⟩
  intro img r hb hr
  constructor
  · unfold main
    rw [if_neg (by decide), if_neg (by decide), if_neg (by decide), if_pos (by decide), hr]
    simp only
    cases write_file_header r.1 (update_header r.2 ufile) <;> rfl
  · obtain ⟨_, _, _, _, htab⟩ := read_file_header_some malloc img r hr
    apply update_header_loop_no_size _ _ _ hmark
    rw [htab]
    exact parse_files_offset _ _ (fun x hx => hb x (List.mem_of_mem_drop hx))

/-- Witness of C23: the argument "boot:1:-:30:40" yields the marks of x, width
and height, and the table keeps its offsets and sizes. -/
theorem update_mode_keeps_offset_size_witness :
    parse_args strtol_decimal
        [[98, 111, 111, 116, 58, 49, 58, 45, 58, 51, 48, 58, 52, 48]] []
      = some [⟨strncpy [98, 111, 111, 116] 20 ++ [0], 1, 0, 30, 40, 0, 0, 13, []⟩]
    ∧ (update_header [⟨name_boot, 10, 20, 0, 0, 1024, 100⟩,
        ⟨name_bootloader, 1, 1, 0, 0, 1536, 600⟩]
        [⟨strncpy [98, 111, 111, 116] 20 ++ [0], 1, 0, 30, 40, 0, 0, 13, []⟩]).map
        (fun f => (f.offset, f.size))
      = [(1024, 100), (1536, 600)]
    ∧ (update_header [⟨name_boot, 10, 20, 0, 0, 1024, 100⟩,
        ⟨name_bootloader, 1, 1, 0, 0, 1536, 600⟩]
        [⟨strncpy [98, 111, 111, 116] 20 ++ [0], 1, 0, 30, 40, 0, 0, 13, []⟩]).map
        (fun f => (f.imgwidth, f.imgheight))
      = [(30, 40), (1, 1)] :=
  ⟨by decide,
    (update_mode_keeps_offset_size malloc_ok libpng_rows strtol_decimal
      [[98, 111, 111, 116, 58, 49, 58, 45, 58, 51, 48, 58, 52, 48]] []
      [⟨strncpy [98, 111, 111, 116] 20 ++ [0], 1, 0, 30, 40, 0, 0, 13, []⟩]
      [⟨name_boot, 10, 20, 0, 0, 1024, 100⟩, ⟨name_bootloader, 1, 1, 0, 0, 1536, 600⟩]
      (by decide) (by decide)).2.2.1,
    by decide⟩

/-! ## Claims about the room for the table -/

theorem flatMap_file_bytes_length_of_names (imgs : List imgdata_file)
    (hn : ∀ f ∈ imgs, f.name.length = 16) :
    (imgs.flatMap file_bytes).length = 40 * imgs.length := by
  induction imgs with
  | nil => rfl
  | cons f fs ih =>
    simp only [List.flatMap_cons, List.length_append, List.length_cons,
      file_bytes_length f (hn f (List.mem_cons_self _ _)),
      ih (fun g hg => hn g (List.mem_cons_of_mem _ hg))]
    omega

theorem write_file_header_length (bimg : imgdatahdr) (imgs : List imgdata_file)
    (hm : bimg.magic.length = 8) (hn1 : 1 ≤ bimg.num_files) (hn2 : bimg.num_files < 2147483648)
    (hlen : imgs.length = bimg.num_files) (hn : ∀ f ∈ imgs, f.name.length = 16) :
    ∃ bytes, write_file_header bimg imgs = outcome.ok bytes ∧
      bytes = hdr_bytes bimg ++ imgs.flatMap file_bytes ∧
      bytes.length = 24 + 40 * bimg.num_files := by
  refine ⟨hdr_bytes bimg ++ imgs.flatMap file_bytes, ?_, rfl, ?_⟩
  · unfold write_file_header
    rw [if_neg (by omega), List.take_of_length_le (by omega)]
  · rw [List.length_append, hdr_bytes_length bimg hm,
      flatMap_file_bytes_length_of_names imgs hn, hlen]

theorem update_header_loop_names (imgs : List imgdata_file) (ufile : List arg) (oc : Int) :
    (update_header_loop imgs ufile oc).map (fun f => f.name) = imgs.map (fun f => f.name) := by
  induction imgs generalizing oc with
  | nil => rfl
  | cons f rest ih =>
    simp only [update_header_loop, List.map_cons, ih]
    unfold update_entry
    rw [foldl_update_one_name]

theorem strncpy_length (src : List Nat) (n : Nat) : (strncpy src n).length = n := by
  unfold strncpy
  rw [List.length_append, List.length_take, List.length_replicate]
  omega

theorem name_check_le (name : List Nat) : name_check name ≤ 16 := by
  unfold name_check
  cases strrchr name 46 with
  | none => simp [IMGDATA_FILE_NAME_SIZE]
  | some d => simp only [IMGDATA_FILE_NAME_SIZE]; split_ifs <;> omega

theorem create_file_header_names (ufile : List arg) :
    ∀ f ∈ (create_file_header ufile).2, f.name.length = 16 := by
  intro f hf
  simp only [create_file_header, List.mem_map] at hf
  obtain ⟨u, _, rfl⟩ := hf
  have := name_check_le u.name
  simp only [List.length_append, strncpy_length, List.length_replicate, IMGDATA_FILE_NAME_SIZE]
  omega

theorem update_header_names_length (imgs : List imgdata_file) (ufile : List arg)
    (h : ∀ f ∈ imgs, f.name.length = 16) :
    ∀ f ∈ update_header imgs ufile, f.name.length = 16 := by
  intro f hf
  have hmem : f.name ∈ (update_header imgs ufile).map (fun f => f.name) :=
    List.mem_map_of_mem _ hf
  rw [update_header, update_header_loop_names] at hmem
  obtain ⟨g, hg, hgn⟩ := List.mem_map.1 hmem
  rw [← hgn]
  exact h g hg

theorem write_file_args_loop_eq (ufile : List arg) (out : List (List Nat))
    (hbs : ∀ u ∈ ufile, u.bsize ≠ 0) :
    write_file_args_loop ufile out
      = some (out ++ ufile.map (fun u => (content_bytes u.content).take u.bsize)) := by
  induction ufile generalizing out with
  | nil => simp [write_file_args_loop]
  | cons u us ih =>
    have hu := hbs u (List.mem_cons_self _ _)
    simp only [write_file_args_loop, fwrite, hu, if_false]
    rw [ih _ (fun v hv => hbs v (List.mem_cons_of_mem _ hv))]
    simp

/-- C24.  The header and the table that `write_file_header` writes for `n`
entries are `24 + 40 * n` bytes from byte 0 on, so they end at or before the
content start 1024 exactly when `n <= 25`.  In create mode with more than 25
files (every payload being written), the header and table are longer than 1024
bytes, `write_file_args` truncates the file to 1024 bytes and writes the
payloads from byte 1024 on: the final file is the first 1024 bytes of the
header and table followed by the payloads, so the bytes from 1024 on, where
the records from the 26th on were written, hold the payloads. -/
theorem table_room (malloc : Nat → Bool) (png : libpng) (bimg : imgdatahdr)
    (imgs : List imgdata_file) (ufile : List arg)
    (hm : bimg.magic.length = 8) (hn1 : 1 ≤ bimg.num_files) (hn2 : bimg.num_files < 2147483648)
    (hlen : imgs.length = bimg.num_files) (hn : ∀ f ∈ imgs, f.name.length = 16)
    (hu : 25 < ufile.length) (hu2 : ufile.length < 2147483648)
    (hbs : ∀ u ∈ ufile, u.bsize ≠ 0) :
    (∃ bytes, write_file_header bimg imgs = outcome.ok bytes ∧
      bytes.length = 24 + 40 * bimg.num_files ∧
      (bytes.length ≤ IMGDATA_FILE_OFFSET_START ↔ bimg.num_files ≤ 25)) ∧
    (∃ h ps final, (main malloc png RUN_CREATE [] ufile).header = some h ∧
      h = hdr_bytes (create_file_header ufile).1
        ++ (update_header (create_file_header ufile).2 ufile).flatMap file_bytes ∧
      h.length = 24 + 40 * ufile.length ∧ IMGDATA_FILE_OFFSET_START < h.length ∧
      (main malloc png RUN_CREATE [] ufile).payloads = some ps ∧
      ps = ufile.map (fun u => (content_bytes u.content).take u.bsize) ∧
      (payload_positions IMGDATA_FILE_OFFSET_START ps).head? = some 1024 ∧
      create_file malloc png ufile = some final ∧
      final = h.take 1024 ++ ps.flatten ∧
      final.take 1024 = h.take 1024 ∧
      final.drop 1024 = ps.flatten) := by
  constructor
  · obtain ⟨bytes, h1, _, h3⟩ := write_file_header_length bimg imgs hm hn1 hn2 hlen hn
    refine ⟨bytes, h1, h3, ?_⟩
    rw [h3, IMGDATA_FILE_OFFSET_START]
    omega
  · have hnames := update_header_names_length (create_file_header ufile).2 ufile
      (create_file_header_names ufile)
    have hcount : (create_file_header ufile).1.num_files = ufile.length := rfl
    have hlen2 : (update_header (create_file_header ufile).2 ufile).length
        = (create_file_header ufile).1.num_files := by
      rw [update_header, update_header_loop_length, hcount]
      simp [create_file_header]
    obtain ⟨h, hw, hh, hhl⟩ := write_file_header_length (create_file_header ufile).1
      (update_header (create_file_header ufile).2 ufile) rfl (by rw [hcount]; omega)
      (by rw [hcount]; omega) hlen2 hnames
    rw [hcount] at hhl
    have hps : write_file_args ufile
        = some (ufile.map (fun u => (content_bytes u.content).take u.bsize)) := by
      have := write_file_args_loop_eq ufile [] hbs
      simpa [write_file_args] using this
    have hmain : main malloc png RUN_CREATE [] ufile
        = { main_result.idle EXIT_SUCCESS with
            header := some h, payloads := write_file_args ufile } := by
      unfold main
      rw [if_neg (by decide), if_neg (by decide), if_neg (by decide), if_neg (by decide),
        if_neg (by decide), if_pos (by decide), hw]
    have hhead : (main malloc png RUN_CREATE [] ufile).header = some h := by
      rw [hmain]
    have hpay : (main malloc png RUN_CREATE [] ufile).payloads
        = some (ufile.map (fun u => (content_bytes u.content).take u.bsize)) := by
      rw [hmain]
      exact hps
    have htr : ftruncate h IMGDATA_FILE_OFFSET_START = h.take 1024 := by
      unfold ftruncate
      rw [IMGDATA_FILE_OFFSET_START, show 1024 - h.length = 0 by omega]
      simp
    have htl : (h.take 1024).length = 1024 := by
      rw [List.length_take]; omega
    refine ⟨h, _, _, hhead, hh, hhl, by rw [hhl, IMGDATA_FILE_OFFSET_START]; omega, hpay, rfl,
      ?_, ?_, rfl, List.take_left' htl, List.drop_left' htl⟩
    · cases hcase : ufile with
      | nil => rw [hcase] at hu; simp at hu
      | cons u us => rfl
    · unfold create_file
      rw [hhead, hpay]
      simp only [htr]

/-- Witness of C24: create with 26 files of one red pixel.  The 26th record
was written at byte 1024 and began with "boot"; in the final file byte 1024
begins the first payload, the run (1, 255, 0, 0). -/
theorem table_room_witness :
    (∃ (h : List Nat) (ps : List (List Nat)) (final : List Nat),
      (main malloc_ok libpng_rows RUN_CREATE []
          (List.replicate 26 (png_arg arg_boot_png 1 [[⟨255, 0, 0⟩]]))).header = some h ∧
      h.length = 24 + 40 * 26 ∧
      create_file malloc_ok libpng_rows
          (List.replicate 26 (png_arg arg_boot_png 1 [[⟨255, 0, 0⟩]])) = some final ∧
      final.take 1024 = h.take 1024 ∧
      final.drop 1024 = ps.flatten)
    ∧ (main malloc_ok libpng_rows RUN_CREATE []
        (List.replicate 26 (png_arg arg_boot_png 1 [[⟨255, 0, 0⟩]]))).header.map
        (fun h => (h.drop 1024).take 4) = some [98, 111, 111, 116]
    ∧ (create_file malloc_ok libpng_rows
        (List.replicate 26 (png_arg arg_boot_png 1 [[⟨255, 0, 0⟩]]))).map
        (fun f => (f.drop 1024).take 4) = some [1, 255, 0, 0] := by
  refine ⟨?_, by decide, by decide⟩
  obtain ⟨_, h, ps, final, h1, _, h3, _, _, _, _, h8, _, h10, h11⟩ :=
    table_room malloc_ok libpng_rows ⟨IMGDATA_MAGIC, 1, 1, 0, 0⟩
      [⟨name_boot, 1, 1, 0, 0, 1024, 4⟩]
      (List.replicate 26 (png_arg arg_boot_png 1 [[⟨255, 0, 0⟩]]))
      rfl (by decide) (by decide) rfl (by decide) (by decide) (by decide) (by decide)
  exact ⟨h, ps, final, h1, h3, h8, h10, h11⟩

end Imgdata
